import Mathlib

/-!
# Beam: the file lifecycle engine of `main.go`

A shallow embedding of the handlers of `main.go` (`handleUpload`, `handleGetMeta`,
`handleDownload`, the burn goroutine started by `cleanupReader.Close`, and one pass of the
loop of `startCleanupRoutine`) over an explicit state: the rows of the `FileRecord` table,
the set of blob paths present on disk, and the burn goroutines that have been started and
have not run yet.

Modelling conventions.

* A `time.Time` is an `Int`: nanoseconds since the Unix epoch. A `time.Duration` is an `Int`
  number of nanoseconds, as in Go. Every time the program handles comes from `time.Now()`,
  so it is in the local time zone: `zone t` is the offset from UTC, in seconds east, that the
  local zone has at the instant `t`.
* The store keeps a time as text, in the layout `2006-01-02 15:04:05.999999999-07:00` of
  Go's `Format`, written in the local zone, and compares two times as texts, byte by byte
  (`timeText`, `textLt`). The query of the sweep, `expires_at < ?`, is that comparison.
* The table is a list of rows. `Code` is its primary key: `db.Create` refuses a row whose
  code is already present, `db.Delete(&r)` removes the row whose primary key is `r.Code`,
  `db.First(&r, "code = ?", c)` finds the row with code `c`.
  The rows are those `handleUpload` wrote, so no primary key is Go's zero value (on which
  the library would refuse to delete). Counting, finding and deleting rows do not fail;
  inserting may.
* The disk is the list of paths at which a blob is present. Writing a blob, opening one and
  removing one may fail.
* Everything the handlers read from outside (the random draws, the clock, whether a blob
  write, a row insert, an open or a blob removal fails) is an explicit argument.
* A handler runs from start to end without another one in between; the burn goroutine runs
  as a step of its own, at any later point.
* The allocation loop of `handleUpload` has no exit but a free code, so it is run with fuel:
  `none` means that the loop is still drawing after `fuel` attempts.
-/

namespace Beam

/-! ## Time -/

/-- Go's `time.Second`, in nanoseconds. -/
def Second : Int := 1000000000

/-- Go's `time.Minute`. -/
def Minute : Int := 60 * Second

/-- Go's `time.Hour`. -/
def Hour : Int := 60 * Minute

/-- Go's `Time.Unix`: the whole seconds since the epoch (rounded down). -/
def Unix (t : Int) : Int := t / Second

/-! ## Times as the store writes them -/

/-- The order in which the store compares two texts: byte by byte, and a text that another
one continues comes first. -/
def textLt : List Char → List Char → Bool
  | [], [] => false
  | [], _ :: _ => true
  | _ :: _, [] => false
  | a :: as, b :: bs =>
    if a.toNat < b.toNat then true
    else if b.toNat < a.toNat then false
    else textLt as bs

/-- The function `appendInt` of Go's `time` package: the decimal form of `x`, padded with
zeros to `width` digits, after a minus sign when `x` is negative. -/
def appendInt (x : Int) (width : Nat) : List Char :=
  (if x < 0 then ['-'] else []) ++
    (List.replicate (width - (Nat.toDigits 10 x.natAbs).length) '0' ++ Nat.toDigits 10 x.natAbs)

/-- Go's `isLeap`. -/
def isLeap (year : Int) : Bool :=
  decide (year % 4 = 0 ∧ (year % 100 ≠ 0 ∨ year % 400 = 0))

/-- Go's table `daysBefore`: the days of a common year before each month. -/
def daysBefore : List Nat := [0, 31, 59, 90, 120, 151, 181, 212, 243, 273, 304, 334, 365]

/-- The year and the day of the year of a day counted from 1 January of year 1, as Go's
`absDate` finds them: cut off the cycles of 400 years, then of 100 years (three at most),
then of 4 years, then the years (three at most). -/
def yearYday (days : Int) : Int × Nat :=
  let n400 := days / 146097
  let d0 := (days % 146097).toNat
  let q100 := d0 / 36524
  let n100 := q100 - q100 / 4
  let d1 := d0 - 36524 * n100
  let n4 := d1 / 1461
  let d2 := d1 - 1461 * n4
  let q1 := d2 / 365
  let n1 := q1 - q1 / 4
  (400 * n400 + 100 * n100 + 4 * n4 + n1 + 1, d2 - 365 * n1)

/-- The month and the day of the month of a day of the year, as Go's `absDate` finds them:
set the leap day apart, guess the month from 31-day months and adjust by `daysBefore`. -/
def monthDay (leap : Bool) (yday : Nat) : Nat × Nat :=
  if leap = true ∧ yday = 59 then (2, 29)
  else
    let day := if leap = true ∧ yday > 59 then yday - 1 else yday
    let month := day / 31
    let e := daysBefore.getD (month + 1) 0
    if day ≥ e then (month + 2, day - e + 1)
    else (month + 1, day - daysBefore.getD month 0 + 1)

/-- A string of digits without its trailing zeros. -/
def trimZeros : List Char → List Char
  | [] => []
  | c :: cs => if trimZeros cs = [] ∧ c = '0' then [] else c :: trimZeros cs

/-- The layout element `.999999999`: the nanoseconds as nine digits after a point, trailing
zeros dropped, and nothing at all when they are zero. -/
def formatNano (nsec : Nat) : List Char :=
  if trimZeros (appendInt nsec 9) = [] then [] else '.' :: trimZeros (appendInt nsec 9)

/-- The layout element `-07:00`: sign, hours and minutes of the offset from UTC. -/
def formatOffset (offset : Int) : List Char :=
  (if offset ≤ -60 then '-' else '+') ::
    (appendInt (offset.natAbs / 60 / 60 : Nat) 2 ++
      ':' :: appendInt (offset.natAbs / 60 % 60 : Nat) 2)

/-- The text the store keeps for the time `t`, and receives for a time in a query: Go's
`t.Format("2006-01-02 15:04:05.999999999-07:00")`, where `t` is in the local zone. The day
count 719162 is that of 1 January 1970 from 1 January of year 1. -/
def timeText (zone : Int → Int) (t : Int) : List Char :=
  let loc := t + zone t * Second
  let sec := loc / Second
  let nsec := (loc % Second).toNat
  let yd := yearYday (sec / 86400 + 719162)
  let md := monthDay (isLeap yd.1) yd.2
  let sod := (sec % 86400).toNat
  appendInt yd.1 4 ++ '-' :: (appendInt md.1 2 ++ '-' :: (appendInt md.2 2 ++ ' ' ::
    (appendInt (sod / 3600 : Nat) 2 ++ ':' :: (appendInt (sod % 3600 / 60 : Nat) 2 ++ ':' ::
      (appendInt (sod % 60 : Nat) 2 ++ (formatNano nsec ++ formatOffset (zone t)))))))

/-! ## Formatting -/

/-- The verb `%d` of `fmt.Sprintf` on an integer. -/
def sprintfD (z : Int) : List Char :=
  if z < 0 then '-' :: Nat.toDigits 10 z.natAbs else Nat.toDigits 10 z.natAbs

/-- The verb `%04d` of `fmt.Sprintf` on a non-negative integer: decimal, padded on the left
with zeros to four characters. -/
def sprintf04d (n : Nat) : String :=
  String.mk (List.replicate (4 - (Nat.toDigits 10 n).length) '0' ++ Nat.toDigits 10 n)

/-- The number a string of decimal digits stands for (used to read `%d` back). -/
def decVal (cs : List Char) : Nat :=
  cs.foldl (fun a c => 10 * a + (c.toNat - 48)) 0

/-- The scan of Go's `filepath.Ext`, on the reversed name: walk back from the last character
to the first `'.'`, giving up at a path separator. `acc` is the suffix walked over so far. -/
def extScan : List Char → List Char → List Char
  | [], _ => []
  | c :: rest, acc =>
    if c = '/' then []
    else if c = '.' then '.' :: acc
    else extScan rest (c :: acc)

/-- Go's `filepath.Ext`: the suffix of the last path element that starts at its last dot,
empty when there is none. -/
def filepathExt (name : String) : String :=
  String.mk (extScan name.data.reverse [])

/-- `fmt.Sprintf("%s_%d%s", code, time.Now().Unix(), ext)` (line 101). -/
def uniqueName (code : String) (now : Int) (ext : String) : String :=
  code ++ "_" ++ String.mk (sprintfD (Unix now)) ++ ext

/-- `filepath.Join("./uploads", uniqueName)` (line 102): the name holds no separator, so the
cleaned path is the directory, a separator and the name. -/
def savePathOf (name : String) : String :=
  "uploads/" ++ name

/-- The duration chosen from `expire_in` (lines 79 to 84). -/
def selectDuration (expireStr : String) : Int :=
  if expireStr = "10m" then 10 * Minute
  else if expireStr = "24h" then 24 * Hour
  else Hour

/-- Go's `Duration.String` on the three durations `selectDuration` can return. -/
def durationString (d : Int) : String :=
  if d = 10 * Minute then "10m0s"
  else if d = 24 * Hour then "24h0m0s"
  else "1h0m0s"

/-! ## Data model -/

/-- The row type `FileRecord` (lines 19 to 28). `CreatedAt` is `none` while it holds Go's
zero time; `db.Create` fills it in. -/
structure FileRecord where
  Code : String
  OriginalName : String
  Size : Int
  MimeType : String
  FilePath : String
  BurnAfter : Bool
  ExpiresAt : Int
  CreatedAt : Option Int
deriving DecidableEq, Repr

/-- The state the handlers share: the table behind `db`, the blobs on disk, and the burn
goroutines that were started (each holding its copy of the record) and have not run. -/
structure State where
  db : List FileRecord
  fs : List String
  burns : List FileRecord
deriving DecidableEq, Repr

/-- The state of a fresh deployment. -/
def State.init : State := ⟨[], [], []⟩

/-! ## The record store -/

/-- `db.Model(&FileRecord{}).Where("code = ?", code).Count(&count)`. -/
def dbCount (db : List FileRecord) (code : String) : Nat :=
  (db.filter (fun r => decide (r.Code = code))).length

/-- `db.First(&record, "code = ?", code)`: `none` is the not-found error. -/
def dbFirst (db : List FileRecord) (code : String) : Option FileRecord :=
  db.find? (fun r => decide (r.Code = code))

/-- `db.Create(&record)`: `none` is an error. The insert fails when the store reports a
failure and when the primary key is taken; otherwise the row is added, with `CreatedAt` set
to the current time when it was left zero. -/
def dbCreate (db : List FileRecord) (record : FileRecord) (now : Int) (fails : Bool) :
    Option (List FileRecord) :=
  if fails = true ∨ dbCount db record.Code ≠ 0 then none
  else some (db ++ [{ record with CreatedAt := record.CreatedAt.orElse (fun _ => some now) }])

/-- `db.Delete(&record)`: delete by primary key. -/
def dbDelete (db : List FileRecord) (record : FileRecord) : List FileRecord :=
  db.filter (fun r => decide (r.Code ≠ record.Code))

/-- `db.Where("expires_at < ?", now).Find(&expired)`: the rows whose stored `expires_at` text
comes before the text of `now`. -/
def dbFindExpired (zone : Int → Int) (db : List FileRecord) (now : Int) : List FileRecord :=
  db.filter (fun r => textLt (timeText zone r.ExpiresAt) (timeText zone now))

/-! ## Blob storage -/

/-- The outcome of `c.SaveFile`: the blob is written, or the write fails, leaving either
nothing or an incomplete file at the path. -/
inductive SaveOutcome where
  | written
  | failed (leftover : Bool)
deriving DecidableEq, Repr

/-- A file appears at `path`. -/
def fsAdd (fs : List String) (path : String) : List String :=
  if path ∈ fs then fs else path :: fs

/-- `os.Remove(path)`: the files afterwards, and whether an error is returned. It fails when
there is no file at `path`, and when the system refuses (`ok = false`). -/
def osRemove (fs : List String) (path : String) (ok : Bool) : List String × Bool :=
  if ok = true ∧ path ∈ fs then (fs.filter (fun p => decide (p ≠ path)), false)
  else (fs, true)

/-! ## Requests and responses -/

/-- The `*multipart.FileHeader` of the uploaded document. -/
structure FileHeader where
  Filename : String
  Size : Int
  ContentType : String
deriving DecidableEq, Repr

/-- What `handleUpload` reads from the request. -/
structure UploadRequest where
  document : Option FileHeader
  burn_after : String
  expire_in : String
deriving DecidableEq, Repr

/-- What `handleUpload` reads from its environment, in the order it reads it. -/
structure UploadEnv where
  /-- The successive results of `rand.Intn(10000)`. -/
  draws : Nat → Fin 10000
  /-- `time.Now()` of line 101. -/
  nameNow : Int
  /-- The outcome of `c.SaveFile`. -/
  save : SaveOutcome
  /-- `time.Now()` of line 115. -/
  recordNow : Int
  /-- Whether the store reports an error on `db.Create`. -/
  createFails : Bool
  /-- The time `db.Create` writes to `CreatedAt`. -/
  createNow : Int
  /-- Whether the system lets the `os.Remove` of line 120 through. -/
  removeOk : Bool

/-- The body of a response. -/
inductive Body where
  | error (msg : String)
  | text (msg : String)
  | uploaded (code : String) (expires : String)
  | metadata (name : String) (size : Int) (type : String) (uploaded_at : Option Int)
      (burn_after : Bool)
  | stream (disposition : String) (contentLength : String) (contentType : String)
      (path : String)
deriving DecidableEq, Repr

/-- A response: status and body. -/
structure Response where
  status : Nat
  body : Body
deriving DecidableEq, Repr

/-! ## The handlers -/

/-- The allocation loop of `handleUpload` (lines 90 to 98), from attempt `i` on: draw, format,
count the rows with that code, stop when there is none. The result is the code and the number
of draws used; `none` when `fuel` attempts were all taken. -/
def allocLoop (db : List FileRecord) (draws : Nat → Fin 10000) :
    Nat → Nat → Option (String × Nat)
  | 0, _ => none
  | fuel + 1, i =>
    let code := sprintf04d (draws i).val
    if dbCount db code = 0 then some (code, i + 1)
    else allocLoop db draws fuel (i + 1)

/-- `handleUpload` (lines 70 to 128). `none`: the allocation loop has not stopped within
`fuel` attempts (nothing has been written at that point). -/
def handleUpload (s : State) (req : UploadRequest) (env : UploadEnv) (fuel : Nat) :
    Option (Response × State) :=
  match req.document with
  | none => some (⟨400, .error "No file received"⟩, s)
  | some file =>
    let burnAfter := decide (req.burn_after = "true")
    let duration := selectDuration req.expire_in
    match allocLoop s.db env.draws fuel 0 with
    | none => none
    | some (code, _) =>
      let ext := filepathExt file.Filename
      let savePath := savePathOf (uniqueName code env.nameNow ext)
      match env.save with
      | .failed leftover =>
        some (⟨500, .error "Failed to save file"⟩,
          { s with fs := if leftover then fsAdd s.fs savePath else s.fs })
      | .written =>
        let fs1 := fsAdd s.fs savePath
        let record : FileRecord :=
          { Code := code
            OriginalName := file.Filename
            Size := file.Size
            MimeType := file.ContentType
            FilePath := savePath
            BurnAfter := burnAfter
            ExpiresAt := env.recordNow + duration
            CreatedAt := none }
        match dbCreate s.db record env.createNow env.createFails with
        | none =>
          some (⟨500, .error "Database error"⟩,
            { s with fs := (osRemove fs1 savePath env.removeOk).1 })
        | some db1 =>
          some (⟨200, .uploaded code (durationString duration)⟩,
            { s with db := db1, fs := fs1 })

/-- `handleGetMeta` (lines 130 to 146). It changes nothing. -/
def handleGetMeta (s : State) (code : String) : Response :=
  match dbFirst s.db code with
  | none => ⟨404, .error "Invalid or expired code"⟩
  | some record =>
    ⟨200, .metadata record.OriginalName record.Size record.MimeType record.CreatedAt
      record.BurnAfter⟩

/-- `handleDownload` (lines 161 to 199), up to the close of the stream. `os.Open` reports
"not exist" when no blob is at the path, and may fail for another reason (`openFails`) when
one is. Closing the stream of a burn-after record starts a burn goroutine on a copy of the
record. -/
def handleDownload (s : State) (code : String) (openFails : Bool) : Response × State :=
  match dbFirst s.db code with
  | none => (⟨404, .text "File not found"⟩, s)
  | some record =>
    if record.FilePath ∈ s.fs then
      if openFails then (⟨404, .text "File not found on disk"⟩, s)
      else
        (⟨200, .stream ("attachment; filename=\"" ++ record.OriginalName ++ "\"")
            (String.mk (sprintfD record.Size)) record.MimeType record.FilePath⟩,
          if record.BurnAfter then { s with burns := s.burns ++ [record] } else s)
    else
      (⟨404, .text "File not found on disk"⟩, { s with db := dbDelete s.db record })

/-- The burn goroutine after its sleep (lines 185 to 190): delete the row of the captured
record, then remove the captured path. -/
def burnDelete (s : State) (r : FileRecord) (rmOk : Bool) : State :=
  { s with db := dbDelete s.db r, fs := (osRemove s.fs r.FilePath rmOk).1 }

/-- The loop over the expired rows in `startCleanupRoutine` (lines 208 to 215): remove the
blob, whatever comes of it, then delete the row. `rm i` tells whether the system lets the
removal for the `i`-th row through. -/
def sweepLoop : List FileRecord → (Nat → Bool) → State → State
  | [], _, s => s
  | file :: rest, rm, s =>
    sweepLoop rest (fun i => rm (i + 1))
      { s with fs := (osRemove s.fs file.FilePath (rm 0)).1, db := dbDelete s.db file }

/-- One tick of `startCleanupRoutine` at time `now` (lines 204 to 215). -/
def startCleanupRoutineTick (zone : Int → Int) (s : State) (now : Int) (rm : Nat → Bool) :
    State :=
  sweepLoop (dbFindExpired zone s.db now) rm s

/-! ## Runs -/

/-- What can happen to the state, one handler or goroutine at a time. -/
inductive Event where
  | upload (req : UploadRequest) (env : UploadEnv) (fuel : Nat)
  | getMeta (code : String)
  | download (code : String) (openFails : Bool)
  /-- The `i`-th burn goroutine wakes up. -/
  | burn (i : Nat) (rmOk : Bool)
  | sweep (now : Int) (rm : Nat → Bool)

/-- The state after an event, in a deployment whose local zone is `zone`. -/
def step (zone : Int → Int) (s : State) : Event → State
  | .upload req env fuel =>
    match handleUpload s req env fuel with
    | none => s
    | some (_, s1) => s1
  | .getMeta _ => s
  | .download code openFails => (handleDownload s code openFails).2
  | .burn i rmOk =>
    match s.burns.get? i with
    | none => s
    | some r => burnDelete { s with burns := s.burns.eraseIdx i } r rmOk
  | .sweep now rm => startCleanupRoutineTick zone s now rm

/-- The state after a sequence of events, from the fresh deployment. -/
def run (zone : Int → Int) (es : List Event) : State :=
  es.foldl (step zone) State.init

/-! ## Names for what an upload writes -/

/-- The path `handleUpload` saves the blob at (lines 100 to 102), given the code. -/
def uploadPath (file : FileHeader) (env : UploadEnv) (code : String) : String :=
  savePathOf (uniqueName code env.nameNow (filepathExt file.Filename))

/-- The row a successful `handleUpload` leaves in the table, given the code. -/
def uploadRecord (file : FileHeader) (req : UploadRequest) (env : UploadEnv) (code : String) :
    FileRecord :=
  { Code := code
    OriginalName := file.Filename
    Size := file.Size
    MimeType := file.ContentType
    FilePath := uploadPath file env code
    BurnAfter := decide (req.burn_after = "true")
    ExpiresAt := env.recordNow + selectDuration req.expire_in
    CreatedAt := some env.createNow }

/-! ## Invariants -/

/-- The shape `handleUpload` gives a row: a four-character code, and a path that is the
upload directory followed by a name starting with that code. -/
def PathOfCode (r : FileRecord) : Prop :=
  r.Code.length = 4 ∧ ∃ rest : String, r.FilePath = savePathOf (r.Code ++ rest)

/-- The invariant of the lifecycle: every row has the shape above and its blob on disk, every
pending burn holds a record of that shape, and no two rows share a code. -/
def Inv (s : State) : Prop :=
  (∀ r ∈ s.db, PathOfCode r ∧ r.FilePath ∈ s.fs) ∧
  (∀ r ∈ s.burns, PathOfCode r) ∧
  (s.db.map (fun r => r.Code)).Nodup

/-! ## Names used in the proofs about stored times -/

/-- The years of a span of at most four years less a day, and the days left. -/
def yd1 (d2 : Nat) : Nat × Nat :=
  (d2 / 365 - d2 / 365 / 4, d2 - 365 * (d2 / 365 - d2 / 365 / 4))

/-- The years of a span within a century, and the days left. -/
def yd4 (d1 : Nat) : Nat × Nat :=
  (4 * (d1 / 1461) + (yd1 (d1 - 1461 * (d1 / 1461))).1, (yd1 (d1 - 1461 * (d1 / 1461))).2)

/-- The years of a span within 400 years, and the days left. -/
def yd100 (d0 : Nat) : Nat × Nat :=
  (100 * (d0 / 36524 - d0 / 36524 / 4) +
      (yd4 (d0 - 36524 * (d0 / 36524 - d0 / 36524 / 4))).1,
    (yd4 (d0 - 36524 * (d0 / 36524 - d0 / 36524 / 4))).2)

/-- The local reading of the instant `t` lies in the years 0 to 9999, which are written with
four digits and no sign: from -62167219200 s, 1 January of year 0, to 253402300800 s,
1 January of year 10000, exclusive. -/
def InYears (zone : Int → Int) (t : Int) : Prop :=
  -62167219200 * Second ≤ t + zone t * Second ∧ t + zone t * Second < 253402300800 * Second

instance (zone : Int → Int) (t : Int) : Decidable (InYears zone t) := by
  unfold InYears; infer_instance

/-! ## Sample inputs -/

/-- A five-byte text file. -/
def sampleFile : FileHeader := ⟨"foo.txt", 5, "text/plain"⟩

/-- An upload of `sampleFile`, burn after reading, ten minutes. -/
def sampleReq : UploadRequest := ⟨some sampleFile, "true", "10m"⟩

/-- An environment in which every draw is `0`, nothing fails, and the clock reads a little
after 1700000000 seconds. -/
def sampleEnv : UploadEnv :=
  { draws := fun _ => 0
    nameNow := 1700000000123456789
    save := .written
    recordNow := 1700000000123460000
    createFails := false
    createNow := 1700000000123470000
    removeOk := true }

/-- The row the sample upload creates in the empty store. -/
def sampleRecord : FileRecord :=
  { Code := "0000"
    OriginalName := "foo.txt"
    Size := 5
    MimeType := "text/plain"
    FilePath := "uploads/0000_1700000000.txt"
    BurnAfter := true
    ExpiresAt := 1700000600123460000
    CreatedAt := some 1700000000123470000 }

/-- A store in which all 10000 four-digit codes are live. -/
@[irreducible]
def fullStore : List FileRecord :=
  (List.range 10000).map (fun n =>
    { sampleRecord with Code := sprintf04d n, FilePath := savePathOf (sprintf04d n ++ "_0") })

/-- A second row, code `0007`, that lives for twenty-four hours. -/
def sampleRecord7 : FileRecord :=
  { sampleRecord with
    Code := "0007"
    FilePath := "uploads/0007_1700000000.txt"
    BurnAfter := false
    ExpiresAt := 1700086400123460000 }

/-- An upload of `sampleFile`, kept for twenty-four hours. -/
def sampleReq7 : UploadRequest := ⟨some sampleFile, "false", "24h"⟩

/-- The sample environment with the draws 0, 0, 7, 7, ... -/
def sampleEnv7 : UploadEnv :=
  { sampleEnv with draws := fun i => if i < 2 then 0 else 7 }

/-- A store with both sample rows and their blobs: the state after the two sample uploads. -/
def sampleState : State :=
  ⟨[sampleRecord, sampleRecord7],
    ["uploads/0007_1700000000.txt", "uploads/0000_1700000000.txt"], []⟩

/-- A time 700 s after the sample upload: the ten-minute row has expired, the other has
not. -/
def sampleLater : Int := 1700000700000000000

/-- A local zone that goes from UTC-7 to UTC-8 at 1699174800 s: Pacific time at the end of
daylight saving, 5 November 2023, when 02:00 becomes 01:00. The sample uploads above come
after the change. -/
def fallBack (t : Int) : Int :=
  if t < 1699174800 * Second then -25200 else -28800

/-- An upload twenty minutes before the change, kept ten minutes: its row expires ten minutes
before the change, at 01:50 local time, UTC-7. -/
def uploadBeforeChange : Event :=
  .upload sampleReq
    { sampleEnv with
      nameNow := 1699173600000000000
      recordNow := 1699173600000000000
      createNow := 1699173600000000000 } 1

/-- The row of `uploadBeforeChange`. -/
def rowBeforeChange : FileRecord :=
  { sampleRecord with
    FilePath := "uploads/0000_1699173600.txt"
    ExpiresAt := 1699174200000000000
    CreatedAt := some 1699173600000000000 }

/-- An upload forty minutes before the change, kept one hour: its row expires twenty minutes
after the change, at 01:20 local time, UTC-8. -/
def uploadAcrossChange : Event :=
  .upload ⟨some sampleFile, "false", ""⟩
    { sampleEnv with
      nameNow := 1699172400000000000
      recordNow := 1699172400000000000
      createNow := 1699172400000000000 } 1

/-- Ten minutes before the change: 01:50 local time, UTC-7. -/
def beforeChange : Int := 1699174200000000000

/-- Five minutes after the change: 01:05 local time, UTC-8. -/
def afterChange : Int := 1699175100000000000

/-- The row of `uploadAcrossChange`. -/
def rowAcrossChange : FileRecord :=
  { sampleRecord with
    FilePath := "uploads/0000_1699172400.txt"
    BurnAfter := false
    ExpiresAt := 1699176000000000000
    CreatedAt := some 1699172400000000000 }

/-- The sample environment twenty seconds later. -/
def sampleEnvLater : UploadEnv :=
  { sampleEnv with
    nameNow := 1700000020123456789
    recordNow := 1700000020123460000
    createNow := 1700000020123470000 }

/-- The row the sample upload creates twenty seconds later, under the same code. -/
def sampleRecordLater : FileRecord :=
  { sampleRecord with
    FilePath := "uploads/0000_1700000020.txt"
    ExpiresAt := 1700000620123460000
    CreatedAt := some 1700000020123470000 }

/-- A burn-after upload under code `0000`, an upload under code `0007`, and two downloads of
the first: each starts a burn goroutine on its copy of the row. -/
def downloadRun : List Event :=
  [.upload sampleReq sampleEnv 1, .upload sampleReq7 sampleEnv7 5, .download "0000" false,
   .download "0000" false]

/-- `downloadRun`, followed by the first burn deletion. -/
def burnRun : List Event :=
  downloadRun ++ [.burn 0 true]

/-- `burnRun`, followed by a later upload that draws the same code. -/
def reuseRun : List Event :=
  burnRun ++ [.upload sampleReq sampleEnvLater 1]

/-! ## Decimal formatting lemmas -/

theorem digitChar_isDigit (k : Nat) (h : k < 10) : (Nat.digitChar k).isDigit = true := by
  interval_cases k <;> decide

theorem digitChar_val (k : Nat) (h : k < 10) : (Nat.digitChar k).toNat - 48 = k := by
  interval_cases k <;> decide

theorem toDigitsCore_append (fuel : Nat) : ∀ (n : Nat) (ds : List Char),
    Nat.toDigitsCore 10 fuel n ds = Nat.toDigitsCore 10 fuel n [] ++ ds := by
  induction fuel with
  | zero => intro n ds; simp [Nat.toDigitsCore]
  | succ f ih =>
    intro n ds
    simp only [Nat.toDigitsCore]
    split
    · simp
    · rw [ih (n / 10) (_ :: ds), ih (n / 10) [_]]; simp

theorem toDigitsCore_isDigit (fuel : Nat) : ∀ (n : Nat) (c : Char),
    c ∈ Nat.toDigitsCore 10 fuel n [] → c.isDigit = true := by
  induction fuel with
  | zero => intro n c h; simp [Nat.toDigitsCore] at h
  | succ f ih =>
    intro n c h
    simp only [Nat.toDigitsCore] at h
    split at h
    · simp at h; subst h; exact digitChar_isDigit _ (Nat.mod_lt _ (by decide))
    · rw [toDigitsCore_append] at h
      simp at h
      rcases h with h | h
      · exact ih _ _ h
      · subst h; exact digitChar_isDigit _ (Nat.mod_lt _ (by decide))

theorem decVal_snoc (cs : List Char) (c : Char) :
    decVal (cs ++ [c]) = 10 * decVal cs + (c.toNat - 48) := by
  simp [decVal, List.foldl_append]

theorem decVal_toDigitsCore (fuel : Nat) : ∀ n : Nat, n < fuel →
    decVal (Nat.toDigitsCore 10 fuel n []) = n := by
  induction fuel with
  | zero => intro n h; omega
  | succ f ih =>
    intro n h
    simp only [Nat.toDigitsCore]
    split
    · rename_i h0
      have hn : n < 10 := by omega
      have hm : n % 10 = n := by omega
      simp [decVal, hm, digitChar_val n hn]
    · rename_i h0
      rw [toDigitsCore_append, decVal_snoc, ih (n / 10) (by omega),
        digitChar_val _ (Nat.mod_lt n (by decide : 0 < 10))]
      omega

theorem decVal_toDigits (n : Nat) : decVal (Nat.toDigits 10 n) = n :=
  decVal_toDigitsCore (n + 1) n (Nat.lt_succ_self n)

theorem toDigits_injective {m n : Nat} (h : Nat.toDigits 10 m = Nat.toDigits 10 n) : m = n := by
  have := congrArg decVal h
  rwa [decVal_toDigits, decVal_toDigits] at this

theorem toDigits_isDigit (n : Nat) (c : Char) (h : c ∈ Nat.toDigits 10 n) :
    c.isDigit = true :=
  toDigitsCore_isDigit _ _ _ h

theorem toDigits_length_le (n : Nat) (h : n < 10000) : (Nat.toDigits 10 n).length ≤ 4 :=
  Nat.toDigitsCore_length 10 (by decide) (n + 1) n 4 (by simpa using h) (by decide)

/-! ## The order of stored times -/

theorem textLt_irrefl (a : List Char) : textLt a a = false := by
  induction a with
  | nil => rfl
  | cons c cs ih => simp [textLt, ih]

theorem textLt_asymm (a : List Char) : ∀ b, textLt a b = true → textLt b a = false := by
  induction a with
  | nil => intro b h; cases b <;> simp [textLt] at h ⊢
  | cons c cs ih =>
    intro b h
    cases b with
    | nil => simp [textLt] at h
    | cons d ds =>
      simp only [textLt] at h ⊢
      by_cases h1 : c.toNat < d.toNat
      · have : ¬ d.toNat < c.toNat := by omega
        simp [this, h1]
      · by_cases h2 : d.toNat < c.toNat
        · simp [h1, h2] at h
        · simp only [h1, h2, if_false] at h ⊢
          exact ih ds h

theorem textLt_append_same (p s t : List Char) : textLt (p ++ s) (p ++ t) = textLt s t := by
  induction p with
  | nil => rfl
  | cons c cs ih => simp [textLt, ih]

theorem textLt_append_of_lt (xs : List Char) : ∀ (ys s t : List Char),
    xs.length = ys.length → textLt xs ys = true → textLt (xs ++ s) (ys ++ t) = true := by
  induction xs with
  | nil => intro ys s t hl h; cases ys <;> simp [textLt] at h hl
  | cons c cs ih =>
    intro ys s t hl h
    cases ys with
    | nil => simp at hl
    | cons d ds =>
      simp only [textLt, List.cons_append] at h ⊢
      by_cases h1 : c.toNat < d.toNat
      · simp [h1]
      · by_cases h2 : d.toNat < c.toNat
        · simp [h1, h2] at h
        · simp only [h1, h2, if_false] at h ⊢
          exact ih ds s t (by simpa using hl) h

theorem isDigit_toNat (c : Char) (h : c.isDigit = true) : 48 ≤ c.toNat ∧ c.toNat ≤ 57 := by
  simp only [Char.isDigit, Bool.and_eq_true, decide_eq_true_eq] at h
  have h1 : (48 : UInt32).toNat ≤ c.val.toNat := h.1
  have h2 : c.val.toNat ≤ (57 : UInt32).toNat := h.2
  exact ⟨h1, h2⟩

theorem decVal_foldl (l : List Char) : ∀ init : Nat,
    l.foldl (fun a c => 10 * a + (c.toNat - 48)) init = init * 10 ^ l.length + decVal l := by
  induction l with
  | nil => intro init; simp [decVal]
  | cons c cs ih =>
    intro init
    simp only [List.foldl_cons, decVal, List.length_cons]
    rw [ih, ih (10 * 0 + (c.toNat - 48))]
    ring

theorem decVal_cons (c : Char) (cs : List Char) :
    decVal (c :: cs) = (c.toNat - 48) * 10 ^ cs.length + decVal cs := by
  simp only [decVal, List.foldl_cons]
  rw [decVal_foldl]
  simp [decVal]

theorem decVal_lt_pow (l : List Char) (h : ∀ c ∈ l, c.isDigit = true) :
    decVal l < 10 ^ l.length := by
  induction l with
  | nil => simp [decVal]
  | cons c cs ih =>
    rw [decVal_cons, List.length_cons, pow_succ]
    have := ih (fun x hx => h x (List.mem_cons_of_mem _ hx))
    have hd := isDigit_toNat c (h c (List.mem_cons_self _ _))
    have : (c.toNat - 48) * 10 ^ cs.length ≤ 9 * 10 ^ cs.length :=
      Nat.mul_le_mul_right _ (by omega)
    omega

theorem textLt_of_decVal_lt (xs : List Char) : ∀ ys : List Char, xs.length = ys.length →
    (∀ c ∈ xs, c.isDigit = true) → (∀ c ∈ ys, c.isDigit = true) →
    decVal xs < decVal ys → textLt xs ys = true := by
  induction xs with
  | nil => intro ys hl _ _ h; cases ys <;> simp [decVal] at h hl
  | cons c cs ih =>
    intro ys hl hx hy h
    cases ys with
    | nil => simp at hl
    | cons d ds =>
      have hl2 : cs.length = ds.length := by simpa using hl
      have hc := isDigit_toNat c (hx c (List.mem_cons_self _ _))
      have hd := isDigit_toNat d (hy d (List.mem_cons_self _ _))
      have bx := decVal_lt_pow cs (fun x hx1 => hx x (List.mem_cons_of_mem _ hx1))
      have by1 := decVal_lt_pow ds (fun x hx1 => hy x (List.mem_cons_of_mem _ hx1))
      rw [decVal_cons, decVal_cons, hl2] at h
      rw [hl2] at bx
      simp only [textLt]
      by_cases h1 : c.toNat < d.toNat
      · simp [h1]
      · by_cases h2 : d.toNat < c.toNat
        · exfalso
          have : (d.toNat - 48 + 1) * 10 ^ ds.length ≤ (c.toNat - 48) * 10 ^ ds.length :=
            Nat.mul_le_mul_right _ (by omega)
          have e : (d.toNat - 48 + 1) * 10 ^ ds.length =
              (d.toNat - 48) * 10 ^ ds.length + 10 ^ ds.length := by ring
          omega
        · simp only [h1, h2, if_false]
          have e : c.toNat = d.toNat := by omega
          rw [e] at h
          exact ih ds hl2 (fun x hx1 => hx x (List.mem_cons_of_mem _ hx1))
            (fun x hx1 => hy x (List.mem_cons_of_mem _ hx1)) (by omega)



theorem decVal_append (xs ys : List Char) :
    decVal (xs ++ ys) = decVal xs * 10 ^ ys.length + decVal ys := by
  simp only [decVal, List.foldl_append]
  rw [decVal_foldl]
  simp [decVal]

theorem decVal_replicate_zero (k : Nat) : decVal (List.replicate k '0') = 0 := by
  induction k with
  | zero => rfl
  | succ n ih => rw [List.replicate_succ, decVal_cons, ih]; simp

theorem appendInt_spec (x : Int) (w : Nat) (h0 : 0 ≤ x) (h1 : x < 10 ^ w) (hw : 0 < w) :
    (appendInt x w).length = w ∧ (∀ c ∈ appendInt x w, c.isDigit = true) ∧
      decVal (appendInt x w) = x.natAbs := by
  have hneg : ¬ x < 0 := by omega
  have hlt : x.natAbs < 10 ^ w := by
    have : ((x.natAbs : Nat) : Int) < ((10 ^ w : Nat) : Int) := by
      rw [Int.natAbs_of_nonneg h0]; push_cast; exact h1
    exact_mod_cast this
  have hlen : (Nat.toDigits 10 x.natAbs).length ≤ w :=
    Nat.toDigitsCore_length 10 (by decide) (x.natAbs + 1) x.natAbs w hlt hw
  simp only [appendInt, hneg, if_false, List.nil_append]
  refine ⟨?_, ?_, ?_⟩
  · simp only [List.length_append, List.length_replicate]; omega
  · intro c hc
    rcases List.mem_append.1 hc with hc | hc
    · rw [(List.mem_replicate.1 hc).2]; decide
    · exact toDigits_isDigit _ c hc
  · rw [decVal_append, decVal_replicate_zero, decVal_toDigits]; simp

/-- A fixed-width field, then the rest: the field decides unless it is equal. -/
theorem textLt_field (x y : Int) (w : Nat) (hw : 0 < w) (hx0 : 0 ≤ x) (hx1 : x < 10 ^ w)
    (hy0 : 0 ≤ y) (hy1 : y < 10 ^ w) (r1 r2 : List Char)
    (h : x < y ∨ (x = y ∧ textLt r1 r2 = true)) :
    textLt (appendInt x w ++ r1) (appendInt y w ++ r2) = true := by
  rcases h with h | ⟨h, hr⟩
  · obtain ⟨lx, dx, vx⟩ := appendInt_spec x w hx0 hx1 hw
    obtain ⟨ly, dy, vy⟩ := appendInt_spec y w hy0 hy1 hw
    apply textLt_append_of_lt _ _ _ _ (lx.trans ly.symm)
    apply textLt_of_decVal_lt _ _ (lx.trans ly.symm) dx dy
    rw [vx, vy]; omega
  · subst h
    rw [textLt_append_same]; exact hr

theorem textLt_cons_same (c : Char) (s t : List Char) :
    textLt (c :: s) (c :: t) = textLt s t := by
  simp [textLt]

theorem trimZeros_cons (c : Char) (cs : List Char) :
    trimZeros (c :: cs) = [] ∨ trimZeros (c :: cs) = c :: trimZeros cs := by
  simp only [trimZeros]
  split
  · left; rfl
  · right; rfl

theorem trimZeros_cons_ne (c : Char) (cs : List Char) (h : c ≠ '0' ∨ trimZeros cs ≠ []) :
    trimZeros (c :: cs) = c :: trimZeros cs := by
  simp only [trimZeros]
  split
  · rename_i h2; rcases h with h | h
    · exact absurd h2.2 h
    · exact absurd h2.1 h
  · rfl

/-- Trimming trailing zeros keeps the order of two digit strings of one length, when what
follows starts with a character below the digits. -/
theorem textLt_trimZeros (xs : List Char) : ∀ (ys : List Char) (c0 : Char) (s t : List Char),
    xs.length = ys.length → (∀ c ∈ xs, c.isDigit = true) → (∀ c ∈ ys, c.isDigit = true) →
    c0.toNat < 48 → textLt xs ys = true →
    trimZeros ys ≠ [] ∧ textLt (trimZeros xs ++ c0 :: s) (trimZeros ys ++ c0 :: t) = true := by
  induction xs with
  | nil => intro ys c0 s t hl _ _ _ h; cases ys <;> simp [textLt] at h hl
  | cons x xs ih =>
    intro ys c0 s t hl hx hy hc h
    cases ys with
    | nil => simp at hl
    | cons y ys =>
      have hl2 : xs.length = ys.length := by simpa using hl
      have dx := isDigit_toNat x (hx x (List.mem_cons_self _ _))
      have dy := isDigit_toNat y (hy y (List.mem_cons_self _ _))
      simp only [textLt] at h
      by_cases h1 : x.toNat < y.toNat
      · have hy0 : y ≠ '0' := by
          intro e; rw [e] at h1; have : ('0' : Char).toNat = 48 := rfl; omega
        rw [trimZeros_cons_ne y ys (Or.inl hy0)]
        refine ⟨by simp, ?_⟩
        rcases trimZeros_cons x xs with e | e
        · rw [e]; simp only [List.nil_append, List.cons_append, textLt]
          have : c0.toNat < y.toNat := by omega
          simp [this]
        · rw [e]; simp only [List.cons_append, textLt]; simp [h1]
      · by_cases h2 : y.toNat < x.toNat
        · simp [h1, h2] at h
        · simp only [h1, h2, if_false] at h
          have exy : x = y := by
            have : x.toNat = y.toNat := by omega
            exact Char.ext (UInt32.ext (by simpa [Char.toNat] using this))
          subst exy
          obtain ⟨hne, hlt⟩ := ih ys c0 s t hl2 (fun c hc1 => hx c (List.mem_cons_of_mem _ hc1))
            (fun c hc1 => hy c (List.mem_cons_of_mem _ hc1)) hc h
          rw [trimZeros_cons_ne x ys (Or.inr hne)]
          refine ⟨by simp, ?_⟩
          rcases trimZeros_cons x xs with e | e
          · rw [e]; simp only [List.nil_append, List.cons_append, textLt]
            have : c0.toNat < x.toNat := by omega
            simp [this]
          · rw [e]; simp only [List.cons_append, textLt_cons_same]; exact hlt

theorem textLt_formatNano (a b : Nat) (hab : a < b) (hb : b < 1000000000) (c0 : Char)
    (s : List Char) (hc : c0.toNat < 46) :
    textLt (formatNano a ++ c0 :: s) (formatNano b ++ c0 :: s) = true := by
  obtain ⟨la, da, va⟩ := appendInt_spec (a : Int) 9 (by omega) (by norm_num; omega) (by decide)
  obtain ⟨lb, db, vb⟩ := appendInt_spec (b : Int) 9 (by omega) (by norm_num; omega) (by decide)
  have hlt : textLt (appendInt a 9) (appendInt b 9) = true := by
    apply textLt_of_decVal_lt _ _ (la.trans lb.symm) da db
    rw [va, vb]; simpa using hab
  obtain ⟨hne, ht⟩ := textLt_trimZeros _ _ c0 s s (la.trans lb.symm) da db (by omega) hlt
  simp only [formatNano, hne, if_false]
  split
  · simp only [List.nil_append, List.cons_append, textLt]
    have : ('.' : Char).toNat = 46 := rfl
    simp [this, hc]
  · simp only [List.cons_append, textLt_cons_same]; exact ht


/-- A capped division step: the cycles cut off and the days left. -/
theorem cut_capped (c : Nat) (hc : 0 < c) (a b : Nat) (hb : b < 4 * c + 1) (h : a ≤ b) :
    (a / c - a / c / 4 ≤ 3 ∧ c * (a / c - a / c / 4) ≤ a ∧ a - c * (a / c - a / c / 4) ≤ c) ∧
    (a < b → (a / c - a / c / 4 < b / c - b / c / 4 ∨
      (a / c - a / c / 4 = b / c - b / c / 4 ∧
        a - c * (a / c - a / c / 4) < b - c * (b / c - b / c / 4)))) := by
  have ha4 : a / c ≤ 4 := by
    have : a < c * 5 := by nlinarith
    have := Nat.div_lt_of_lt_mul this
    omega
  have hb4 : b / c ≤ 4 := by
    have : b < c * 5 := by nlinarith
    have := Nat.div_lt_of_lt_mul this
    omega
  have hab : a / c ≤ b / c := Nat.div_le_div_right h
  have ea := Nat.div_add_mod a c
  have eb := Nat.div_add_mod b c
  have ma := Nat.mod_lt a hc
  have mb := Nat.mod_lt b hc
  generalize a / c = qa at *
  generalize b / c = qb at *
  generalize a % c = ra at *
  generalize b % c = rb at *
  have hqa : qa = 0 ∨ qa = 1 ∨ qa = 2 ∨ qa = 3 ∨ qa = 4 := by omega
  have hqb : qb = 0 ∨ qb = 1 ∨ qb = 2 ∨ qb = 3 ∨ qb = 4 := by omega
  rcases hqa with rfl | rfl | rfl | rfl | rfl <;> rcases hqb with rfl | rfl | rfl | rfl | rfl <;>
    simp at * <;> omega

theorem cut_plain (c : Nat) (hc : 0 < c) (a b : Nat) (h : a ≤ b) :
    (c * (a / c) ≤ a ∧ a - c * (a / c) < c) ∧
    (a < b → (a / c < b / c ∨ (a / c = b / c ∧ a - c * (a / c) < b - c * (b / c)))) := by
  have hab : a / c ≤ b / c := Nat.div_le_div_right h
  have ea := Nat.div_add_mod a c
  have eb := Nat.div_add_mod b c
  have ma := Nat.mod_lt a hc
  have mb := Nat.mod_lt b hc
  generalize a / c = qa at *
  generalize b / c = qb at *
  generalize a % c = ra at *
  generalize b % c = rb at *
  refine ⟨⟨by omega, by omega⟩, ?_⟩
  intro hlt
  rcases Nat.lt_or_ge qa qb with hq | hq
  · exact Or.inl hq
  · have : qa = qb := by omega
    subst this
    right
    refine ⟨rfl, ?_⟩
    omega


theorem yearYday_eq (days : Int) :
    yearYday days =
      (400 * (days / 146097) + ((yd100 (days % 146097).toNat).1 : Int) + 1,
        (yd100 (days % 146097).toNat).2) := by
  simp only [yearYday, yd100, yd4, yd1]
  refine Prod.ext ?_ rfl
  simp only
  push_cast
  ring

theorem yd1_mono (a b : Nat) (h : a ≤ b) (hb : b < 1461) :
    ((yd1 a).1 ≤ 3 ∧ (yd1 a).2 ≤ 365) ∧
    (a < b → ((yd1 a).1 < (yd1 b).1 ∨ ((yd1 a).1 = (yd1 b).1 ∧ (yd1 a).2 < (yd1 b).2))) := by
  have := cut_capped 365 (by decide) a b (by omega) h
  simp only [yd1]
  exact ⟨⟨this.1.1, this.1.2.2⟩, this.2⟩

theorem yd4_mono (a b : Nat) (h : a ≤ b) (hb : b ≤ 36524) :
    ((yd4 a).1 ≤ 99 ∧ (yd4 a).2 ≤ 365) ∧
    (a < b → ((yd4 a).1 < (yd4 b).1 ∨ ((yd4 a).1 = (yd4 b).1 ∧ (yd4 a).2 < (yd4 b).2))) := by
  have hp := cut_plain 1461 (by decide) a b h
  have hpb := cut_plain 1461 (by decide) b b (le_refl b)
  have hqa : a / 1461 ≤ 24 := by omega
  have hqb : b / 1461 ≤ 24 := by omega
  have ra := yd1_mono (a - 1461 * (a / 1461)) (a - 1461 * (a / 1461)) (le_refl _) hp.1.2
  have rb := yd1_mono (b - 1461 * (b / 1461)) (b - 1461 * (b / 1461)) (le_refl _) hpb.1.2
  simp only [yd4]
  refine ⟨⟨by omega, ra.1.2⟩, ?_⟩
  intro hlt
  rcases hp.2 hlt with hq | ⟨hq, hr⟩
  · left; omega
  · have m := (yd1_mono _ _ (Nat.le_of_lt hr) hpb.1.2).2 hr
    rw [hq] at m ⊢
    rcases m with m | ⟨m1, m2⟩
    · left; omega
    · right; exact ⟨by omega, m2⟩

theorem yd100_mono (a b : Nat) (h : a ≤ b) (hb : b < 146097) :
    ((yd100 a).1 ≤ 399 ∧ (yd100 a).2 ≤ 365) ∧
    (a < b →
      ((yd100 a).1 < (yd100 b).1 ∨ ((yd100 a).1 = (yd100 b).1 ∧ (yd100 a).2 < (yd100 b).2))) := by
  have hp := cut_capped 36524 (by decide) a b (by omega) h
  have hpb := cut_capped 36524 (by decide) b b (by omega) (le_refl b)
  have ra := yd4_mono _ _ (le_refl _) hp.1.2.2
  have rb := yd4_mono _ _ (le_refl _) hpb.1.2.2
  simp only [yd100]
  refine ⟨⟨by omega, ra.1.2⟩, ?_⟩
  intro hlt
  rcases hp.2 hlt with hq | ⟨hq, hr⟩
  · left; omega
  · have m := (yd4_mono _ _ (Nat.le_of_lt hr) hpb.1.2.2).2 hr
    rw [hq] at m ⊢
    rcases m with m | ⟨m1, m2⟩
    · left; omega
    · right; exact ⟨by omega, m2⟩

theorem yearYday_mono (a b : Int) (h : a < b) :
    (yearYday a).1 < (yearYday b).1 ∨
      ((yearYday a).1 = (yearYday b).1 ∧ (yearYday a).2 < (yearYday b).2) := by
  rw [yearYday_eq, yearYday_eq]
  simp only
  have h400 : a / 146097 < b / 146097 ∨
      (a / 146097 = b / 146097 ∧ (a % 146097).toNat < (b % 146097).toNat) := by omega
  have ha : (a % 146097).toNat < 146097 := by omega
  have hb : (b % 146097).toNat < 146097 := by omega
  have ra := (yd100_mono _ _ (le_refl _) ha).1
  have rb := (yd100_mono _ _ (le_refl _) hb).1
  rcases h400 with hq | ⟨hq, hr⟩
  · left; omega
  · have m := (yd100_mono _ _ (Nat.le_of_lt hr) hb).2 hr
    rw [hq]
    rcases m with m | ⟨m1, m2⟩
    · left; omega
    · right; exact ⟨by omega, m2⟩

theorem yearYday_yday_le (a : Int) : (yearYday a).2 ≤ 365 := by
  rw [yearYday_eq]
  exact (yd100_mono _ _ (le_refl _) (by omega)).1.2

theorem yearYday_year_range (a : Int) (h0 : -366 ≤ a) (h1 : a < 719162 + 2932897) :
    0 ≤ (yearYday a).1 ∧ (yearYday a).1 ≤ 9999 := by
  have e0 : yearYday (-366) = (0, 0) := by decide
  have e1 : yearYday (719162 + 2932896) = (9999, 364) := by decide
  constructor
  · rcases lt_or_eq_of_le h0 with h | h
    · rcases yearYday_mono _ _ h with m | ⟨m, -⟩
      · rw [e0] at m; exact le_of_lt m
      · rw [e0] at m; exact le_of_eq m
    · rw [← h, e0]
  · have h2 : a ≤ 719162 + 2932896 := by omega
    rcases lt_or_eq_of_le h2 with h | h
    · rcases yearYday_mono _ _ h with m | ⟨m, -⟩
      · rw [e1] at m; exact le_of_lt m
      · rw [e1] at m; exact le_of_eq m
    · rw [h, e1]

set_option maxRecDepth 100000 in
theorem monthDay_step (leap : Bool) : ∀ a < 365,
    (monthDay leap a).2 < 100 ∧ (monthDay leap (a + 1)).2 < 100 ∧
    (monthDay leap (a + 1)).1 < 100 ∧
    (monthDay leap a).1 * 100 + (monthDay leap a).2 <
      (monthDay leap (a + 1)).1 * 100 + (monthDay leap (a + 1)).2 := by
  cases leap <;> decide

theorem monthDay_key_mono (leap : Bool) (a : Nat) : ∀ b, a < b → b ≤ 365 →
    (monthDay leap a).1 * 100 + (monthDay leap a).2 <
      (monthDay leap b).1 * 100 + (monthDay leap b).2 := by
  intro b
  induction b with
  | zero => intro h; omega
  | succ n ih =>
    intro h hb
    have hs := (monthDay_step leap n (by omega)).2.2.2
    rcases Nat.lt_or_ge a n with h1 | h1
    · exact lt_trans (ih h1 (by omega)) hs
    · have : a = n := by omega
      subst this; exact hs

theorem monthDay_range (leap : Bool) (a : Nat) (h : a ≤ 365) :
    (monthDay leap a).1 < 100 ∧ (monthDay leap a).2 < 100 := by
  rcases Nat.lt_or_ge a 365 with h1 | h1
  · have := monthDay_step leap a h1
    rcases Nat.eq_zero_or_pos a with h0 | h0
    · subst h0; cases leap <;> decide
    · have h2 := monthDay_step leap (a - 1) (by omega)
      rw [Nat.sub_add_cancel h0] at h2
      exact ⟨h2.2.2.1, this.1⟩
  · have : a = 365 := by omega
    subst this
    cases leap <;> decide

theorem monthDay_mono (leap : Bool) (a b : Nat) (h : a < b) (hb : b ≤ 365) :
    (monthDay leap a).1 < (monthDay leap b).1 ∨
      ((monthDay leap a).1 = (monthDay leap b).1 ∧ (monthDay leap a).2 < (monthDay leap b).2) := by
  have k := monthDay_key_mono leap a b h hb
  have ra := monthDay_range leap a (by omega)
  have rb := monthDay_range leap b hb
  omega

theorem timeText_lt_of_lt (zone : Int → Int) (a b : Int) (hz : zone a = zone b)
    (ha : InYears zone a) (hb : InYears zone b) (h : a < b) :
    textLt (timeText zone a) (timeText zone b) = true := by
  unfold InYears Second at ha hb
  have hloc : a + zone a * 1000000000 < b + zone b * 1000000000 := by rw [hz]; omega
  simp only [timeText, Second]
  rw [hz] at ha hloc ⊢
  generalize a + zone b * 1000000000 = la at *
  generalize b + zone b * 1000000000 = lb at *
  -- seconds and nanoseconds
  have hns : la / 1000000000 < lb / 1000000000 ∨
      (la / 1000000000 = lb / 1000000000 ∧
        (la % 1000000000).toNat < (lb % 1000000000).toNat) := by omega
  have hnb : (lb % 1000000000).toNat < 1000000000 := by omega
  have sa0 : -62167219200 ≤ la / 1000000000 := by omega
  have sa1 : la / 1000000000 < 253402300800 := by omega
  have sb0 : -62167219200 ≤ lb / 1000000000 := by omega
  have sb1 : lb / 1000000000 < 253402300800 := by omega
  generalize la / 1000000000 = sa at *
  generalize lb / 1000000000 = sb at *
  generalize (la % 1000000000).toNat = na at *
  generalize (lb % 1000000000).toNat = nb at *
  -- the offset text starts with a sign
  have hoff : ∃ c0 s, formatOffset (zone b) = c0 :: s ∧ c0.toNat < 46 := by
    unfold formatOffset
    split
    · exact ⟨'-', _, rfl, by decide⟩
    · exact ⟨'+', _, rfl, by decide⟩
  obtain ⟨c0, so, eo, hc0⟩ := hoff
  have hfrac : sa = sb → na < nb →
      textLt (formatNano na ++ formatOffset (zone b))
        (formatNano nb ++ formatOffset (zone b)) = true := by
    intro _ hn
    rw [eo]
    exact textLt_formatNano na nb hn hnb c0 so hc0
  -- days and seconds of the day
  have hds : sa / 86400 < sb / 86400 ∨
      (sa / 86400 = sb / 86400 ∧
        ((sa % 86400).toNat < (sb % 86400).toNat ∨
          ((sa % 86400).toNat = (sb % 86400).toNat ∧ sa = sb))) := by omega
  have da0 : -366 ≤ sa / 86400 + 719162 := by omega
  have da1 : sa / 86400 + 719162 < 719162 + 2932897 := by omega
  have db0 : -366 ≤ sb / 86400 + 719162 := by omega
  have db1 : sb / 86400 + 719162 < 719162 + 2932897 := by omega
  have ka : (sa % 86400).toNat < 86400 := by omega
  have kb : (sb % 86400).toNat < 86400 := by omega
  generalize (sa % 86400).toNat = ka' at *
  generalize (sb % 86400).toNat = kb' at *
  have ya := yearYday_year_range _ da0 da1
  have yb := yearYday_year_range _ db0 db1
  have yda := yearYday_yday_le (sa / 86400 + 719162)
  have ydb := yearYday_yday_le (sb / 86400 + 719162)
  have hdate : sa / 86400 < sb / 86400 →
      (yearYday (sa / 86400 + 719162)).1 < (yearYday (sb / 86400 + 719162)).1 ∨
      ((yearYday (sa / 86400 + 719162)).1 = (yearYday (sb / 86400 + 719162)).1 ∧
        (yearYday (sa / 86400 + 719162)).2 < (yearYday (sb / 86400 + 719162)).2) := by
    intro hd
    exact yearYday_mono _ _ (by omega)
  have hsame : sa / 86400 = sb / 86400 →
      yearYday (sa / 86400 + 719162) = yearYday (sb / 86400 + 719162) := by
    intro hd; rw [hd]
  generalize yearYday (sa / 86400 + 719162) = A at *
  generalize yearYday (sb / 86400 + 719162) = B at *
  have ma := monthDay_range (isLeap A.1) A.2 yda
  have mb := monthDay_range (isLeap B.1) B.2 ydb
  have hmd : A.1 = B.1 → A.2 < B.2 →
      (monthDay (isLeap A.1) A.2).1 < (monthDay (isLeap B.1) B.2).1 ∨
      ((monthDay (isLeap A.1) A.2).1 = (monthDay (isLeap B.1) B.2).1 ∧
        (monthDay (isLeap A.1) A.2).2 < (monthDay (isLeap B.1) B.2).2) := by
    intro h1 h2
    rw [h1]
    exact monthDay_mono _ _ _ h2 ydb
  -- the clock fields, from the seconds of the day
  have hclock : ka' < kb' →
      ka' / 3600 < kb' / 3600 ∨ (ka' / 3600 = kb' / 3600 ∧
        (ka' % 3600 / 60 < kb' % 3600 / 60 ∨ (ka' % 3600 / 60 = kb' % 3600 / 60 ∧
          ka' % 60 < kb' % 60))) := by
    intro hk; omega
  have fY := textLt_field A.1 B.1 4 (by decide) (by omega) (by norm_num; omega) (by omega)
    (by norm_num; omega)
  have f2 : ∀ (x y : Nat), x < 100 → y < 100 → ∀ r1 r2 : List Char,
      (x < y ∨ (x = y ∧ textLt r1 r2 = true)) →
      textLt (appendInt x 2 ++ r1) (appendInt y 2 ++ r2) = true := by
    intro x y hx hy r1 r2 hh
    apply textLt_field (x : Int) (y : Int) 2 (by decide) (by omega) (by norm_num; omega)
      (by omega) (by norm_num; omega)
    rcases hh with hh | ⟨hh, hr⟩
    · left; omega
    · right; exact ⟨by omega, hr⟩
  -- assemble, from the year down
  apply fY
  rcases hds with hd | ⟨hd, hk⟩
  · rcases hdate hd with hy | ⟨hy, hyd⟩
    · exact Or.inl hy
    · refine Or.inr ⟨hy, ?_⟩
      rw [textLt_cons_same]
      apply f2 _ _ ma.1 mb.1
      rcases hmd hy hyd with hm | ⟨hm, hdd⟩
      · exact Or.inl hm
      · refine Or.inr ⟨hm, ?_⟩
        rw [textLt_cons_same]
        apply f2 _ _ ma.2 mb.2
        exact Or.inl hdd
  · have hAB := hsame hd
    subst hAB
    refine Or.inr ⟨rfl, ?_⟩
    rw [textLt_cons_same]
    apply f2 _ _ ma.1 mb.1
    refine Or.inr ⟨rfl, ?_⟩
    rw [textLt_cons_same]
    apply f2 _ _ ma.2 mb.2
    refine Or.inr ⟨rfl, ?_⟩
    rw [textLt_cons_same]
    apply f2 _ _ (by omega) (by omega)
    rcases hk with hk | ⟨hk, hss⟩
    · rcases hclock hk with hh | ⟨hh, hm⟩
      · exact Or.inl hh
      · refine Or.inr ⟨hh, ?_⟩
        rw [textLt_cons_same]
        apply f2 _ _ (by omega) (by omega)
        rcases hm with hm | ⟨hm, hs⟩
        · exact Or.inl hm
        · refine Or.inr ⟨hm, ?_⟩
          rw [textLt_cons_same]
          apply f2 _ _ (by omega) (by omega)
          exact Or.inl hs
    · subst hk
      refine Or.inr ⟨rfl, ?_⟩
      rw [textLt_cons_same]
      apply f2 _ _ (by omega) (by omega)
      refine Or.inr ⟨rfl, ?_⟩
      rw [textLt_cons_same]
      apply f2 _ _ (by omega) (by omega)
      refine Or.inr ⟨rfl, ?_⟩
      rcases hns with hn | ⟨-, hn⟩
      · omega
      · exact hfrac hss hn

theorem timeText_lt_iff (zone : Int → Int) (a b : Int) (hz : zone a = zone b)
    (ha : InYears zone a) (hb : InYears zone b) :
    textLt (timeText zone a) (timeText zone b) = true ↔ a < b := by
  constructor
  · intro h
    rcases lt_trichotomy a b with h1 | h1 | h1
    · exact h1
    · subst h1; rw [textLt_irrefl] at h; cases h
    · have := timeText_lt_of_lt zone b a hz.symm hb ha h1
      rw [textLt_asymm _ _ this] at h; cases h
  · exact timeText_lt_of_lt zone a b hz ha hb

/-! ## Store and storage lemmas -/

theorem dbCount_eq_zero_iff (db : List FileRecord) (code : String) :
    dbCount db code = 0 ↔ ∀ r ∈ db, r.Code ≠ code := by
  simp [dbCount, List.filter_eq_nil_iff]

theorem mem_dbDelete (db : List FileRecord) (r x : FileRecord) :
    x ∈ dbDelete db r ↔ x ∈ db ∧ x.Code ≠ r.Code := by
  simp [dbDelete]

theorem mem_fsAdd (fs : List String) (p q : String) :
    q ∈ fsAdd fs p ↔ q = p ∨ q ∈ fs := by
  unfold fsAdd
  split
  · constructor
    · intro h; exact Or.inr h
    · rintro (h | h)
      · subst h; assumption
      · exact h
  · simp

theorem mem_osRemove_of_ne (fs : List String) (p q : String) (ok : Bool)
    (hq : q ∈ fs) (hne : q ≠ p) : q ∈ (osRemove fs p ok).1 := by
  unfold osRemove
  split <;> simp [hq, hne]

theorem mem_of_mem_osRemove (fs : List String) (p q : String) (ok : Bool)
    (hq : q ∈ (osRemove fs p ok).1) : q ∈ fs := by
  unfold osRemove at hq
  split at hq
  · simp at hq; exact hq.1
  · exact hq

theorem not_mem_osRemove (fs : List String) (p : String) :
    p ∉ (osRemove fs p true).1 := by
  unfold osRemove
  split
  · simp
  · rename_i h; simpa using h

/-! ## The allocation loop -/

theorem sprintf04d_length (n : Nat) (h : n < 10000) : (sprintf04d n).length = 4 := by
  have := toDigits_length_le n h
  simp [sprintf04d, String.length]
  omega

theorem sprintf04d_isDigit (n : Nat) (c : Char) (h : c ∈ (sprintf04d n).data) :
    c.isDigit = true := by
  simp [sprintf04d] at h
  rcases h with ⟨_, h⟩ | h
  · subst h; decide
  · exact toDigits_isDigit n c h

/-- Where the loop stops: at the first attempt from `i` on whose code is free. -/
theorem allocLoop_eq_find (db : List FileRecord) (draws : Nat → Fin 10000) (fuel : Nat) :
    ∀ i, allocLoop db draws fuel i =
      ((List.range' i fuel).find?
        (fun k => decide (dbCount db (sprintf04d (draws k).val) = 0))).map
        (fun k => (sprintf04d (draws k).val, k + 1)) := by
  induction fuel with
  | zero => intro i; simp [allocLoop]
  | succ f ih =>
    intro i
    simp only [allocLoop, List.range'_succ, List.find?_cons]
    by_cases h : dbCount db (sprintf04d (draws i).val) = 0
    · simp [h]
    · simp [h, ih]

theorem allocLoop_some (db : List FileRecord) (draws : Nat → Fin 10000) (fuel : Nat) :
    ∀ i code n, allocLoop db draws fuel i = some (code, n) →
      ∃ k, code = sprintf04d (draws k).val ∧ n = k + 1 ∧ dbCount db code = 0 := by
  induction fuel with
  | zero => intro i code n h; simp [allocLoop] at h
  | succ f ih =>
    intro i code n h
    simp only [allocLoop] at h
    split at h
    · rename_i h0
      simp at h
      exact ⟨i, h.1.symm, h.2.symm, h.1 ▸ h0⟩
    · exact ih _ _ _ h

/-! ## The sample inputs are what the handlers produce -/

theorem sampleState_reachable :
    run fallBack [.upload sampleReq sampleEnv 1, .upload sampleReq7 sampleEnv7 5] =
      sampleState := by
  decide

theorem Unix_rounds_down :
    Unix 1700000000999999999 = 1700000000 ∧ Unix (-1) = -1 ∧ Unix 0 = 0 := by
  decide

theorem sprintf_samples :
    sprintf04d 0 = "0000" ∧ sprintf04d 42 = "0042" ∧ sprintf04d 9999 = "9999" ∧
    String.mk (sprintfD 1700000000) = "1700000000" ∧ String.mk (sprintfD (-5)) = "-5" ∧
    filepathExt "foo.txt" = ".txt" ∧ filepathExt "a.b/c" = "" ∧
    filepathExt "archive.tar.gz" = ".gz" ∧ filepathExt "foo." = "." := by
  decide

theorem timeText_samples :
    String.mk (timeText fallBack 1700000000123456789) =
      "2023-11-14 14:13:20.123456789-08:00" ∧
    String.mk (timeText fallBack (1699174800 * Second - 1)) =
      "2023-11-05 01:59:59.999999999-07:00" ∧
    String.mk (timeText fallBack (1699174800 * Second)) = "2023-11-05 01:00:00-08:00" ∧
    String.mk (timeText (fun _ => 0) 1700000000120000000) = "2023-11-14 22:13:20.12+00:00" ∧
    String.mk (timeText (fun _ => 19800) (1709210096 * Second)) =
      "2024-02-29 18:04:56+05:30" ∧
    String.mk (timeText (fun _ => 0) (1709251200 * Second)) = "2024-03-01 00:00:00+00:00" ∧
    String.mk (timeText (fun _ => 0) (4102444800 * Second - 1)) =
      "2099-12-31 23:59:59.999999999+00:00" ∧
    String.mk (timeText (fun _ => 0) (4102444800 * Second)) = "2100-01-01 00:00:00+00:00" ∧
    String.mk (timeText (fun _ => 0) (-1)) = "1969-12-31 23:59:59.999999999+00:00" ∧
    String.mk (timeText (fun _ => -12600) (1704067199 * Second)) =
      "2023-12-31 20:29:59-03:30" := by
  decide

/-! ## The paths of `handleUpload` -/

/-- The five ways through `handleUpload`. -/
theorem handleUpload_cases (s : State) (req : UploadRequest) (env : UploadEnv) (fuel : Nat) :
    (req.document = none ∧
      handleUpload s req env fuel = some (⟨400, .error "No file received"⟩, s)) ∨
    (∃ file, req.document = some file ∧ allocLoop s.db env.draws fuel 0 = none ∧
      handleUpload s req env fuel = none) ∨
    (∃ file code n leftover, req.document = some file ∧
      allocLoop s.db env.draws fuel 0 = some (code, n) ∧ env.save = .failed leftover ∧
      handleUpload s req env fuel = some (⟨500, .error "Failed to save file"⟩,
        { s with fs := if leftover then fsAdd s.fs (uploadPath file env code) else s.fs })) ∨
    (∃ file code n, req.document = some file ∧
      allocLoop s.db env.draws fuel 0 = some (code, n) ∧ env.save = .written ∧
      env.createFails = true ∧
      handleUpload s req env fuel = some (⟨500, .error "Database error"⟩,
        { s with fs := (osRemove (fsAdd s.fs (uploadPath file env code))
            (uploadPath file env code) env.removeOk).1 })) ∨
    (∃ file code n, req.document = some file ∧
      allocLoop s.db env.draws fuel 0 = some (code, n) ∧ env.save = .written ∧
      env.createFails = false ∧
      handleUpload s req env fuel =
        some (⟨200, .uploaded code (durationString (selectDuration req.expire_in))⟩,
          { s with db := s.db ++ [uploadRecord file req env code],
                   fs := fsAdd s.fs (uploadPath file env code) })) := by
  cases hd : req.document with
  | none => left; simp [handleUpload, hd]
  | some file =>
    right
    cases ha : allocLoop s.db env.draws fuel 0 with
    | none => left; exact ⟨file, rfl, rfl, by simp [handleUpload, hd, ha]⟩
    | some cn =>
      obtain ⟨code, n⟩ := cn
      right
      obtain ⟨k, -, -, hfree⟩ := allocLoop_some _ _ _ _ _ _ ha
      cases hs : env.save with
      | failed leftover =>
        left
        exact ⟨file, code, n, leftover, rfl, rfl, rfl, by simp [handleUpload, hd, ha, hs, uploadPath]⟩
      | written =>
        right
        cases hc : env.createFails with
        | true =>
          left
          exact ⟨file, code, n, rfl, rfl, rfl, rfl,
            by simp [handleUpload, hd, ha, hs, hc, dbCreate, uploadPath]⟩
        | false =>
          right
          exact ⟨file, code, n, rfl, rfl, rfl, rfl,
            by simp [handleUpload, hd, ha, hs, hc, dbCreate, hfree, uploadPath, uploadRecord]⟩

/-! ## The invariant is kept -/

theorem pathOfCode_code_eq (a b : FileRecord) (ha : PathOfCode a) (hb : PathOfCode b)
    (h : a.FilePath = b.FilePath) : a.Code = b.Code := by
  obtain ⟨la, ra, ea⟩ := ha
  obtain ⟨lb, rb, eb⟩ := hb
  rw [ea, eb] at h
  have h1 := congrArg String.data h
  simp only [savePathOf, String.data_append] at h1
  have h2 := List.append_cancel_left h1
  have hl : a.Code.data.length = b.Code.data.length := la.trans lb.symm
  have h3 := (List.append_inj h2 hl).1
  exact String.ext h3

theorem pathOfCode_uploadRecord (file : FileHeader) (req : UploadRequest) (env : UploadEnv)
    (code : String) (h : code.length = 4) : PathOfCode (uploadRecord file req env code) := by
  refine ⟨h, "_" ++ String.mk (sprintfD (Unix env.nameNow)) ++ filepathExt file.Filename, ?_⟩
  simp [uploadRecord, uploadPath, uniqueName, String.append_assoc]

theorem allocLoop_code_length (db : List FileRecord) (draws : Nat → Fin 10000) (fuel i : Nat)
    (code : String) (n : Nat) (h : allocLoop db draws fuel i = some (code, n)) :
    code.length = 4 := by
  obtain ⟨k, hk, -, -⟩ := allocLoop_some _ _ _ _ _ _ h
  rw [hk]; exact sprintf04d_length _ (draws k).isLt

theorem allocLoop_code_fresh (db : List FileRecord) (draws : Nat → Fin 10000) (fuel i : Nat)
    (code : String) (n : Nat) (h : allocLoop db draws fuel i = some (code, n)) :
    ∀ r ∈ db, r.Code ≠ code := by
  obtain ⟨k, -, -, hk⟩ := allocLoop_some _ _ _ _ _ _ h
  exact (dbCount_eq_zero_iff _ _).1 hk

theorem nodup_codes_dbDelete (db : List FileRecord) (r : FileRecord)
    (h : (db.map (fun r => r.Code)).Nodup) :
    ((dbDelete db r).map (fun r => r.Code)).Nodup :=
  h.sublist ((List.filter_sublist db).map _)

/-- Deleting the row of `r` and removing the blob of `r` keeps the invariant. -/
theorem inv_delete_remove (s : State) (r : FileRecord) (ok : Bool) (hs : Inv s)
    (hr : PathOfCode r) :
    Inv { s with db := dbDelete s.db r, fs := (osRemove s.fs r.FilePath ok).1 } := by
  obtain ⟨h1, h2, h3⟩ := hs
  refine ⟨?_, h2, nodup_codes_dbDelete _ _ h3⟩
  intro x hx
  obtain ⟨hx1, hx2⟩ := (mem_dbDelete _ _ _).1 hx
  refine ⟨(h1 x hx1).1, mem_osRemove_of_ne _ _ _ _ (h1 x hx1).2 ?_⟩
  intro he
  exact hx2 (pathOfCode_code_eq x r (h1 x hx1).1 hr he)

theorem inv_sweepLoop (l : List FileRecord) : ∀ (rm : Nat → Bool) (s : State),
    (∀ e ∈ l, PathOfCode e) → Inv s → Inv (sweepLoop l rm s) := by
  induction l with
  | nil => intro rm s _ hs; exact hs
  | cons e rest ih =>
    intro rm s hl hs
    simp only [sweepLoop]
    apply ih
    · intro x hx; exact hl x (List.mem_cons_of_mem _ hx)
    · have := inv_delete_remove s e (rm 0) hs (hl e (List.mem_cons_self _ _))
      exact this

theorem inv_handleUpload (s : State) (req : UploadRequest) (env : UploadEnv) (fuel : Nat)
    (resp : Response) (s1 : State) (hs : Inv s)
    (h : handleUpload s req env fuel = some (resp, s1)) : Inv s1 := by
  obtain ⟨h1, h2, h3⟩ := hs
  rcases handleUpload_cases s req env fuel with ⟨-, e⟩ | ⟨_, -, -, e⟩ |
    ⟨file, code, n, leftover, -, ha, -, e⟩ | ⟨file, code, n, -, ha, -, -, e⟩ |
    ⟨file, code, n, -, ha, -, -, e⟩
  · rw [e] at h; cases h; exact ⟨h1, h2, h3⟩
  · rw [e] at h; cases h
  · rw [e] at h; cases h
    refine ⟨?_, h2, h3⟩
    intro r hr
    refine ⟨(h1 r hr).1, ?_⟩
    cases leftover
    · exact (h1 r hr).2
    · exact (mem_fsAdd _ _ _).2 (Or.inr (h1 r hr).2)
  · rw [e] at h; cases h
    refine ⟨?_, h2, h3⟩
    intro r hr
    refine ⟨(h1 r hr).1, mem_osRemove_of_ne _ _ _ _ ((mem_fsAdd _ _ _).2 (Or.inr (h1 r hr).2)) ?_⟩
    intro he
    have hp := pathOfCode_uploadRecord file req env code (allocLoop_code_length _ _ _ _ _ _ ha)
    exact allocLoop_code_fresh _ _ _ _ _ _ ha r hr
      (pathOfCode_code_eq r (uploadRecord file req env code) (h1 r hr).1 hp he)
  · rw [e] at h; cases h
    have hp := pathOfCode_uploadRecord file req env code (allocLoop_code_length _ _ _ _ _ _ ha)
    refine ⟨?_, h2, ?_⟩
    · intro r hr
      rcases List.mem_append.1 hr with hr | hr
      · exact ⟨(h1 r hr).1, (mem_fsAdd _ _ _).2 (Or.inr (h1 r hr).2)⟩
      · rw [List.mem_singleton] at hr
        subst hr
        exact ⟨hp, (mem_fsAdd _ _ _).2 (Or.inl rfl)⟩
    · rw [List.map_append, List.nodup_append]
      refine ⟨h3, by simp, ?_⟩
      intro c hc hc2
      simp only [List.map_cons, List.map_nil, List.mem_singleton] at hc2
      obtain ⟨r, hr, rfl⟩ := List.mem_map.1 hc
      exact allocLoop_code_fresh _ _ _ _ _ _ ha r hr (by simpa [uploadRecord] using hc2)

theorem dbFirst_some (db : List FileRecord) (code : String) (r : FileRecord)
    (h : dbFirst db code = some r) : r ∈ db ∧ r.Code = code := by
  unfold dbFirst at h
  exact ⟨List.mem_of_find?_eq_some h, by simpa using List.find?_some h⟩

theorem inv_handleDownload (s : State) (code : String) (openFails : Bool) (hs : Inv s) :
    Inv (handleDownload s code openFails).2 := by
  obtain ⟨h1, h2, h3⟩ := hs
  unfold handleDownload
  cases hf : dbFirst s.db code with
  | none => exact ⟨h1, h2, h3⟩
  | some record =>
    obtain ⟨hm, -⟩ := dbFirst_some _ _ _ hf
    simp only
    split
    · split
      · exact ⟨h1, h2, h3⟩
      · split
        · refine ⟨h1, ?_, h3⟩
          intro r hr
          rcases List.mem_append.1 hr with hr | hr
          · exact h2 r hr
          · rw [List.mem_singleton] at hr; subst hr; exact (h1 _ hm).1
        · exact ⟨h1, h2, h3⟩
    · refine ⟨?_, h2, nodup_codes_dbDelete _ _ h3⟩
      intro x hx
      exact h1 x ((mem_dbDelete _ _ _).1 hx).1

theorem inv_step (zone : Int → Int) (s : State) (e : Event) (hs : Inv s) :
    Inv (step zone s e) := by
  cases e with
  | upload req env fuel =>
    simp only [step]
    cases h : handleUpload s req env fuel with
    | none => exact hs
    | some p => exact inv_handleUpload s req env fuel p.1 p.2 hs h
  | getMeta code => exact hs
  | download code openFails => exact inv_handleDownload s code openFails hs
  | burn i rmOk =>
    simp only [step]
    cases h : s.burns.get? i with
    | none => exact hs
    | some r =>
      have hr : r ∈ s.burns := List.get?_mem h
      have hs1 : Inv { s with burns := s.burns.eraseIdx i } :=
        ⟨hs.1, fun x hx => hs.2.1 x ((List.eraseIdx_sublist _ _).subset hx), hs.2.2⟩
      exact inv_delete_remove _ r rmOk hs1 (hs.2.1 r hr)
  | sweep now rm =>
    simp only [step, startCleanupRoutineTick]
    apply inv_sweepLoop _ _ _ _ hs
    intro e he
    exact (hs.1 e (List.mem_of_mem_filter he)).1

theorem inv_foldl (zone : Int → Int) (es : List Event) :
    ∀ s, Inv s → Inv (es.foldl (step zone) s) := by
  induction es with
  | nil => intro s hs; exact hs
  | cons e rest ih => intro s hs; exact ih _ (inv_step zone s e hs)

theorem inv_run (zone : Int → Int) (es : List Event) : Inv (run zone es) :=
  inv_foldl zone es _ ⟨by simp [State.init], by simp [State.init], by simp [State.init]⟩

/-! ## Code allocation (C1, C2) -/

/-- C1: when the allocation loop of `handleUpload` stops, the code it chose is four decimal
digits and no row of the store holds it; an upload that then succeeds appends exactly one row,
under that code, to the rows that were there, and keeps the codes pairwise distinct; the
upload does succeed when a document is sent, the blob write succeeds and the insert is not
refused. In every state reached from the empty store no two rows share a code. -/
theorem handleUpload_allocates_free_code (s : State) (req : UploadRequest) (env : UploadEnv)
    (fuel : Nat) (code : String) (n : Nat)
    (h : allocLoop s.db env.draws fuel 0 = some (code, n)) :
    code.length = 4 ∧ (∀ c ∈ code.data, c.isDigit = true) ∧ (∀ r ∈ s.db, r.Code ≠ code) ∧
    (∀ resp s1, handleUpload s req env fuel = some (resp, s1) → resp.status = 200 →
      ∃ r, r.Code = code ∧ s1.db = s.db ++ [r] ∧
        ((s.db.map (fun r => r.Code)).Nodup → (s1.db.map (fun r => r.Code)).Nodup)) ∧
    (∀ file, req.document = some file → env.save = .written → env.createFails = false →
      ∃ resp s1, handleUpload s req env fuel = some (resp, s1) ∧ resp.status = 200 ∧
        s1.db = s.db ++ [uploadRecord file req env code]) ∧
    (∀ zone es, ((run zone es).db.map (fun r => r.Code)).Nodup) := by
  obtain ⟨k, hk, -, -⟩ := allocLoop_some _ _ _ _ _ _ h
  have hfresh := allocLoop_code_fresh _ _ _ _ _ _ h
  refine ⟨allocLoop_code_length _ _ _ _ _ _ h, ?_, hfresh, ?_, ?_,
    fun zone es => (inv_run zone es).2.2⟩
  · intro c hc
    rw [hk] at hc
    exact sprintf04d_isDigit _ c hc
  rotate_left
  · intro file hd hs hc
    rcases handleUpload_cases s req env fuel with ⟨hd1, -⟩ | ⟨_, -, ha1, -⟩ |
      ⟨_, _, _, _, -, -, hs1, -⟩ | ⟨_, _, _, -, -, -, hc1, -⟩ |
      ⟨file1, code1, n1, hd1, ha1, -, -, e⟩
    · rw [hd] at hd1; cases hd1
    · rw [h] at ha1; cases ha1
    · rw [hs] at hs1; cases hs1
    · rw [hc] at hc1; cases hc1
    · rw [hd] at hd1; cases hd1
      rw [h] at ha1; cases ha1
      exact ⟨_, _, e, rfl, rfl⟩
  · intro resp s1 hu hok
    rcases handleUpload_cases s req env fuel with ⟨-, e⟩ | ⟨_, -, -, e⟩ |
      ⟨file, code1, n1, leftover, -, ha, -, e⟩ | ⟨file, code1, n1, -, ha, -, -, e⟩ |
      ⟨file, code1, n1, -, ha, -, -, e⟩
    · rw [e] at hu; cases hu; simp at hok
    · rw [e] at hu; cases hu
    · rw [e] at hu; cases hu; simp at hok
    · rw [e] at hu; cases hu; simp at hok
    · rw [e] at hu; cases hu
      rw [h] at ha; cases ha
      refine ⟨uploadRecord file req env code, rfl, rfl, ?_⟩
      intro hnd
      rw [List.map_append, List.nodup_append]
      refine ⟨hnd, by simp, ?_⟩
      intro c hc hc2
      simp only [List.map_cons, List.map_nil, List.mem_singleton] at hc2
      obtain ⟨r, hr, rfl⟩ := List.mem_map.1 hc
      exact hfresh r hr (by simpa [uploadRecord] using hc2)

/-- C1, at a concrete input: the store holds code `0000`, the draws are 0, 0, 7, and the
loop stops at the third draw with the free code `0007`. -/
theorem handleUpload_allocates_free_code_witness :
    allocLoop [sampleRecord] sampleEnv7.draws 5 0 = some ("0007", 3) ∧
    ∀ r ∈ [sampleRecord], r.Code ≠ "0007" :=
  ⟨by decide,
    (handleUpload_allocates_free_code ⟨[sampleRecord], ["uploads/0000_1700000000.txt"], []⟩
      sampleReq7 sampleEnv7 5 "0007" 3 (by decide)).2.2.1⟩

theorem mem_fullStore_code (d : Fin 10000) : dbCount fullStore (sprintf04d d.val) ≠ 0 := by
  rw [Ne, dbCount_eq_zero_iff]
  intro h
  unfold fullStore at h
  refine h { sampleRecord with Code := sprintf04d d.val,
                               FilePath := savePathOf (sprintf04d d.val ++ "_0") } ?_ rfl
  exact List.mem_map.2 ⟨d.val, List.mem_range.2 d.isLt, rfl⟩

/-- Where the loop stands after `fuel` attempts from attempt 0. -/
theorem allocLoop_none_iff (db : List FileRecord) (draws : Nat → Fin 10000) (fuel : Nat) :
    allocLoop db draws fuel 0 = none ↔
      ∀ k < fuel, dbCount db (sprintf04d (draws k).val) ≠ 0 := by
  rw [allocLoop_eq_find, ← List.range_eq_range']
  simp [List.find?_eq_none]

/-- C2, refuted as stated: with all 10000 codes live the loop never stops, whatever the draws
and however many attempts it is given, and `handleUpload` never answers. -/
theorem allocLoop_full_store_never_stops :
    (¬ ∃ (draws : Nat → Fin 10000) (fuel : Nat), (allocLoop fullStore draws fuel 0).isSome) ∧
    (¬ ∃ (env : UploadEnv) (fuel : Nat),
      (handleUpload ⟨fullStore, [], []⟩ sampleReq env fuel).isSome) := by
  have key : ∀ (draws : Nat → Fin 10000) (fuel : Nat), allocLoop fullStore draws fuel 0 = none :=
    fun draws fuel => (allocLoop_none_iff _ _ _).2 (fun k _ => mem_fullStore_code (draws k))
  constructor
  · rintro ⟨draws, fuel, h⟩
    rw [key] at h; simp at h
  · rintro ⟨env, fuel, h⟩
    rcases handleUpload_cases ⟨fullStore, [], []⟩ sampleReq env fuel with ⟨hd, -⟩ |
      ⟨_, -, -, e⟩ | ⟨_, _, _, _, -, ha, -, -⟩ | ⟨_, _, _, -, ha, -, -, -⟩ |
      ⟨_, _, _, -, ha, -, -, -⟩
    · simp [sampleReq] at hd
    · rw [e] at h; simp at h
    · exact Option.noConfusion ((key env.draws fuel).symm.trans ha)
    · exact Option.noConfusion ((key env.draws fuel).symm.trans ha)
    · exact Option.noConfusion ((key env.draws fuel).symm.trans ha)

/-- C2, amended: given `fuel` attempts, the allocation loop returns the code of the first of
its first `fuel` draws that is free, with the number of draws used, and is still drawing when
none of them is free. It has no attempt bound of its own and no failure outcome. -/
theorem allocLoop_stops_at_first_free_draw (db : List FileRecord) (draws : Nat → Fin 10000)
    (fuel : Nat) :
    allocLoop db draws fuel 0 =
      ((List.range fuel).find?
        (fun k => decide (dbCount db (sprintf04d (draws k).val) = 0))).map
        (fun k => (sprintf04d (draws k).val, k + 1)) ∧
    (allocLoop db draws fuel 0 = none ↔
      ∀ k < fuel, dbCount db (sprintf04d (draws k).val) ≠ 0) := by
  refine ⟨?_, allocLoop_none_iff db draws fuel⟩
  rw [allocLoop_eq_find, ← List.range_eq_range']

/-! ## The lifecycle invariant (C3) -/

/-- C3: whatever the local zone, in every state reached from the empty store by uploads
(whatever their outcome),
metadata lookups, downloads, the burn deletions those downloads started and expiry sweeps,
with blob removals free to fail, every row of the store has its blob on disk at its
`FilePath`. -/
theorem record_implies_blob (zone : Int → Int) (es : List Event) (r : FileRecord)
    (hr : r ∈ (run zone es).db) : r.FilePath ∈ (run zone es).fs :=
  ((inv_run zone es).1 r hr).2

/-- C3, at a concrete run: two uploads (codes `0000` and `0007`), a download of the first,
its burn deletion with the blob removal refused, and a sweep; the second row is live and its
blob is on disk. -/
theorem record_implies_blob_witness :
    "uploads/0007_1700000000.txt" ∈
      (run fallBack [.upload sampleReq sampleEnv 1,
            .upload sampleReq7 sampleEnv7 5,
            .download "0000" false,
            .burn 0 false,
            .sweep sampleLater (fun _ => true)]).fs :=
  record_implies_blob fallBack _ sampleRecord7 (by decide)

/-! ## The lifetime of a record (C9) -/

/-- C9: `expire_in` equal to `10m` selects ten minutes, `24h` selects twenty-four hours, and
every other string one hour; a successful upload appends one row whose `ExpiresAt` is the time
read at line 115 plus the selected duration, which is later than that time; and an upload
succeeds whenever a document is sent, the allocation loop stops, the blob write succeeds and
the insert is not refused. -/
theorem handleUpload_lifetime (s : State) (req : UploadRequest) (env : UploadEnv) (fuel : Nat)
    (resp : Response) (s1 : State) (h : handleUpload s req env fuel = some (resp, s1))
    (hok : resp.status = 200) :
    selectDuration "10m" = 10 * 60 * 1000000000 ∧
    selectDuration "24h" = 24 * 3600 * 1000000000 ∧
    (∀ e : String, e ≠ "10m" → e ≠ "24h" → selectDuration e = 3600 * 1000000000) ∧
    (∃ r, s1.db = s.db ++ [r] ∧
      r.ExpiresAt = env.recordNow + selectDuration req.expire_in ∧
      env.recordNow < r.ExpiresAt) ∧
    (∀ req2 env2 file code n, req2.document = some file →
      allocLoop s.db env2.draws fuel 0 = some (code, n) → env2.save = .written →
      env2.createFails = false →
      ∃ resp2 s2, handleUpload s req2 env2 fuel = some (resp2, s2) ∧ resp2.status = 200 ∧
        s2.db = s.db ++ [uploadRecord file req2 env2 code] ∧
        (uploadRecord file req2 env2 code).ExpiresAt =
          env2.recordNow + selectDuration req2.expire_in) := by
  refine ⟨by decide, by decide, ?_, ?_, ?_⟩
  · intro e h1 h2
    simp [selectDuration, h1, h2, Hour, Minute, Second]
  rotate_left
  · intro req2 env2 file code n hd ha hs hc
    rcases handleUpload_cases s req2 env2 fuel with ⟨hd1, -⟩ | ⟨_, -, ha1, -⟩ |
      ⟨_, _, _, _, -, -, hs1, -⟩ | ⟨_, _, _, -, -, -, hc1, -⟩ |
      ⟨file1, code1, n1, hd1, ha1, -, -, e⟩
    · rw [hd] at hd1; cases hd1
    · rw [ha] at ha1; cases ha1
    · rw [hs] at hs1; cases hs1
    · rw [hc] at hc1; cases hc1
    · rw [hd] at hd1; cases hd1
      rw [ha] at ha1; cases ha1
      exact ⟨_, _, e, rfl, rfl, rfl⟩
  · have hpos : ∀ e : String, 0 < selectDuration e := by
      intro e
      unfold selectDuration
      split
      · decide
      · split <;> decide
    rcases handleUpload_cases s req env fuel with ⟨-, e⟩ | ⟨_, -, -, e⟩ |
      ⟨file, code1, n1, leftover, -, ha, -, e⟩ | ⟨file, code1, n1, -, ha, -, -, e⟩ |
      ⟨file, code1, n1, -, ha, -, -, e⟩
    · rw [e] at h; cases h; simp at hok
    · rw [e] at h; cases h
    · rw [e] at h; cases h; simp at hok
    · rw [e] at h; cases h; simp at hok
    · rw [e] at h; cases h
      refine ⟨uploadRecord file req env code1, rfl, rfl, ?_⟩
      have := hpos req.expire_in
      simp only [uploadRecord]
      omega

/-- C9, at a concrete input: the sample upload asks for `10m` at 1700000000.12346 s and its
row expires 600 s later. -/
theorem handleUpload_lifetime_witness :
    handleUpload State.init sampleReq sampleEnv 1 =
      some (⟨200, .uploaded "0000" "10m0s"⟩,
        ⟨[sampleRecord], ["uploads/0000_1700000000.txt"], []⟩) ∧
    ∃ r, [sampleRecord] = [] ++ [r] ∧
      r.ExpiresAt = 1700000000123460000 + selectDuration "10m" ∧
      1700000000123460000 < r.ExpiresAt :=
  ⟨by decide,
    (handleUpload_lifetime State.init sampleReq sampleEnv 1 ⟨200, .uploaded "0000" "10m0s"⟩
      ⟨[sampleRecord], ["uploads/0000_1700000000.txt"], []⟩ (by decide) rfl).2.2.2.1⟩

/-! ## The expiry sweep (C4) -/

theorem sweepLoop_db (l : List FileRecord) : ∀ (rm : Nat → Bool) (s : State),
    (sweepLoop l rm s).db =
      s.db.filter (fun r => decide (r.Code ∉ l.map (fun e => e.Code))) := by
  induction l with
  | nil => intro rm s; simp [sweepLoop]
  | cons e rest ih =>
    intro rm s
    simp only [sweepLoop, ih, dbDelete, List.filter_filter]
    apply List.filter_congr
    intro x _
    by_cases h1 : x.Code = e.Code <;>
      by_cases h2 : x.Code ∈ List.map (fun e => e.Code) rest <;> simp [h1, h2]

theorem sweepLoop_burns (l : List FileRecord) : ∀ (rm : Nat → Bool) (s : State),
    (sweepLoop l rm s).burns = s.burns := by
  induction l with
  | nil => intro rm s; rfl
  | cons e rest ih => intro rm s; simp only [sweepLoop, ih]

theorem sweepLoop_fs_subset (l : List FileRecord) : ∀ (rm : Nat → Bool) (s : State) (p : String),
    p ∈ (sweepLoop l rm s).fs → p ∈ s.fs := by
  induction l with
  | nil => intro rm s p h; exact h
  | cons e rest ih =>
    intro rm s p h
    simp only [sweepLoop] at h
    exact mem_of_mem_osRemove _ _ _ _ (ih _ _ _ h)

theorem sweepLoop_removed (l : List FileRecord) : ∀ (rm : Nat → Bool) (s : State) (i : Nat)
    (hi : i < l.length), rm i = true → l[i].FilePath ∉ (sweepLoop l rm s).fs := by
  induction l with
  | nil => intro rm s i hi; simp at hi
  | cons e rest ih =>
    intro rm s i hi hrm
    simp only [sweepLoop]
    cases i with
    | zero =>
      intro hmem
      have := sweepLoop_fs_subset _ _ _ _ hmem
      simp only [List.getElem_cons_zero, hrm] at this
      exact not_mem_osRemove _ _ this
    | succ j =>
      simp only [List.getElem_cons_succ]
      exact ih (fun i => rm (i + 1)) _ j (by simpa using hi) hrm

theorem code_mem_selected_iff (zone : Int → Int) (db : List FileRecord) (now : Int)
    (hk : (db.map (fun r => r.Code)).Nodup) (r : FileRecord) (hr : r ∈ db) :
    r.Code ∈ (dbFindExpired zone db now).map (fun e => e.Code) ↔
      textLt (timeText zone r.ExpiresAt) (timeText zone now) = true := by
  constructor
  · intro h
    obtain ⟨e, he, hc⟩ := List.mem_map.1 h
    have hmem := List.mem_filter.1 he
    have : e = r := List.inj_on_of_nodup_map hk hmem.1 hr hc
    subst this
    exact hmem.2
  · intro h
    exact List.mem_map.2 ⟨r, List.mem_filter.2 ⟨hr, h⟩, rfl⟩

/-- No row the query selects survives the pass. -/
theorem sweep_leaves_no_selected (zone : Int → Int) (s : State) (now : Int) (rm : Nat → Bool)
    (r : FileRecord) (hr : r ∈ (startCleanupRoutineTick zone s now rm).db) :
    textLt (timeText zone r.ExpiresAt) (timeText zone now) = false := by
  unfold startCleanupRoutineTick at hr
  rw [sweepLoop_db] at hr
  obtain ⟨hmem, hcode⟩ := List.mem_filter.1 hr
  simp only [decide_eq_true_eq] at hcode
  cases h : textLt (timeText zone r.ExpiresAt) (timeText zone now) with
  | false => rfl
  | true => exact absurd (List.mem_map.2 ⟨r, List.mem_filter.2 ⟨hmem, h⟩, rfl⟩) hcode

/-- On distinct codes the pass leaves exactly the rows the query does not select. -/
theorem sweep_db_eq (zone : Int → Int) (s : State) (now : Int) (rm : Nat → Bool)
    (hk : (s.db.map (fun r => r.Code)).Nodup) :
    (startCleanupRoutineTick zone s now rm).db =
      s.db.filter (fun r => !textLt (timeText zone r.ExpiresAt) (timeText zone now)) := by
  unfold startCleanupRoutineTick
  rw [sweepLoop_db]
  apply List.filter_congr
  intro r hr
  have := code_mem_selected_iff zone s.db now hk r hr
  by_cases h : textLt (timeText zone r.ExpiresAt) (timeText zone now) = true
  · simp [h, this.2 h]
  · have h2 : r.Code ∉ (dbFindExpired zone s.db now).map (fun e => e.Code) :=
      fun hm => h (this.1 hm)
    simp only [Bool.not_eq_true] at h
    simp [h, h2]

/-- C4, refuted as stated: across the change of the local zone from UTC-7 to UTC-8 the pass
compares `01:50:00-07:00` with `01:05:00-08:00`. Five minutes after the change it keeps a row
that expired fifteen minutes earlier; ten minutes before the change it deletes a row that
has thirty minutes left. And with one offset throughout, a `now` in the year 10000 is written
with five digits and comes, as text, before an `ExpiresAt` one second earlier. -/
theorem sweep_across_offset_change_misjudges :
    ((run fallBack [uploadBeforeChange]).db = [rowBeforeChange] ∧
      String.mk (timeText fallBack rowBeforeChange.ExpiresAt) = "2023-11-05 01:50:00-07:00" ∧
      String.mk (timeText fallBack afterChange) = "2023-11-05 01:05:00-08:00" ∧
      rowBeforeChange.ExpiresAt < afterChange ∧
      (startCleanupRoutineTick fallBack (run fallBack [uploadBeforeChange]) afterChange
        (fun _ => true)).db = [rowBeforeChange]) ∧
    ((run fallBack [uploadAcrossChange]).db = [rowAcrossChange] ∧
      String.mk (timeText fallBack rowAcrossChange.ExpiresAt) = "2023-11-05 01:20:00-08:00" ∧
      String.mk (timeText fallBack beforeChange) = "2023-11-05 01:50:00-07:00" ∧
      ¬ rowAcrossChange.ExpiresAt < beforeChange ∧
      (startCleanupRoutineTick fallBack (run fallBack [uploadAcrossChange]) beforeChange
        (fun _ => true)).db = []) ∧
    (String.mk (timeText (fun _ => 0) (253402300799 * Second)) = "9999-12-31 23:59:59+00:00" ∧
      String.mk (timeText (fun _ => 0) (253402300800 * Second)) =
        "10000-01-01 00:00:00+00:00" ∧
      dbFindExpired (fun _ => 0) [{ sampleRecord with ExpiresAt := 253402300799 * Second }]
        (253402300800 * Second) = []) := by
  decide

/-- C4, amended: one pass of the sweep at time `now`, whatever blob removals fail, leaves no
row whose stored `expires_at` text comes before the text of `now`, and on distinct codes
(`Code` is the primary key) exactly the other rows, unchanged and in order; the blob of every
selected row whose removal is let through is gone; the pending burns are untouched. When the
local zone has the same offset from UTC at `now` and at the `ExpiresAt` of every row, and
these instants have local dates in the years 0 to 9999, the rows selected are the rows
with `ExpiresAt` earlier than `now`: none of them remains, and on distinct codes every row
whose `ExpiresAt` is not earlier than `now` is kept. -/
theorem sweep_removes_exactly_expired (zone : Int → Int) (s : State) (now : Int)
    (rm : Nat → Bool) :
    (∀ r ∈ (startCleanupRoutineTick zone s now rm).db,
      textLt (timeText zone r.ExpiresAt) (timeText zone now) = false) ∧
    ((s.db.map (fun r => r.Code)).Nodup →
      (startCleanupRoutineTick zone s now rm).db =
        s.db.filter (fun r => !textLt (timeText zone r.ExpiresAt) (timeText zone now))) ∧
    (∀ (i : Nat) (hi : i < (dbFindExpired zone s.db now).length), rm i = true →
      (dbFindExpired zone s.db now)[i].FilePath ∉
        (startCleanupRoutineTick zone s now rm).fs) ∧
    (startCleanupRoutineTick zone s now rm).burns = s.burns ∧
    ((∀ r ∈ s.db, zone r.ExpiresAt = zone now) → (∀ r ∈ s.db, InYears zone r.ExpiresAt) →
      InYears zone now →
      (∀ r ∈ (startCleanupRoutineTick zone s now rm).db, ¬ r.ExpiresAt < now) ∧
      ((s.db.map (fun r => r.Code)).Nodup →
        (startCleanupRoutineTick zone s now rm).db =
          s.db.filter (fun r => decide (¬ r.ExpiresAt < now)) ∧
        (∀ r ∈ s.db, ¬ r.ExpiresAt < now →
          r ∈ (startCleanupRoutineTick zone s now rm).db))) := by
  refine ⟨sweep_leaves_no_selected zone s now rm, sweep_db_eq zone s now rm, ?_,
    sweepLoop_burns _ _ _, ?_⟩
  · intro i hi hrm
    exact sweepLoop_removed _ rm s i hi hrm
  · intro hz hy hn
    have hsel : ∀ r ∈ s.db,
        (textLt (timeText zone r.ExpiresAt) (timeText zone now) = true ↔ r.ExpiresAt < now) :=
      fun r hr => timeText_lt_iff zone r.ExpiresAt now (hz r hr) (hy r hr) hn
    have hsub : ∀ r ∈ (startCleanupRoutineTick zone s now rm).db, r ∈ s.db := by
      intro r hr
      unfold startCleanupRoutineTick at hr
      rw [sweepLoop_db] at hr
      exact (List.mem_filter.1 hr).1
    refine ⟨?_, ?_⟩
    · intro r hr hexp
      have h1 := sweep_leaves_no_selected zone s now rm r hr
      rw [(hsel r (hsub r hr)).2 hexp] at h1
      cases h1
    · intro hk
      have hdb : (startCleanupRoutineTick zone s now rm).db =
          s.db.filter (fun r => decide (¬ r.ExpiresAt < now)) := by
        rw [sweep_db_eq zone s now rm hk]
        apply List.filter_congr
        intro r hr
        by_cases h : r.ExpiresAt < now
        · simp [h, (hsel r hr).2 h]
        · have h2 : textLt (timeText zone r.ExpiresAt) (timeText zone now) = false := by
            cases h3 : textLt (timeText zone r.ExpiresAt) (timeText zone now) with
            | false => rfl
            | true => exact absurd ((hsel r hr).1 h3) h
          simp [h, h2]
      refine ⟨hdb, ?_⟩
      intro r hr hne
      rw [hdb]
      exact List.mem_filter.2 ⟨hr, by simpa using hne⟩

/-- C4 as amended, at a concrete input: the sweep of the two-row sample store 700 s after the
upload, all three instants at UTC-8, with every blob removal refused, leaves exactly the
twenty-four-hour row. -/
theorem sweep_removes_exactly_expired_witness :
    (∀ r ∈ sampleState.db, fallBack r.ExpiresAt = fallBack sampleLater) ∧
    (sampleState.db.map (fun r => r.Code)).Nodup ∧
    (startCleanupRoutineTick fallBack sampleState sampleLater (fun _ => false)).db =
      [sampleRecord7] :=
  ⟨by decide, by decide,
    ((((sweep_removes_exactly_expired fallBack sampleState sampleLater
      (fun _ => false)).2.2.2.2 (by decide) (by decide) (by decide)).2
      (by decide)).1).trans (by decide)⟩

/-! ## Expired codes (C6) -/

theorem dbFirst_eq_none_iff (db : List FileRecord) (code : String) :
    dbFirst db code = none ↔ ∀ r ∈ db, r.Code ≠ code := by
  simp [dbFirst, List.find?_eq_none]

/-- C6, refuted as stated: 700 s after the sample upload its ten-minute row has expired and no
sweep has run; `handleGetMeta` answers 200 and `handleDownload` answers 200. And a sweep is
not enough when the local zone changed its offset in between: the row that expired ten
minutes before the change is still answered 200 after the sweep five minutes after it. -/
theorem expired_code_still_served_before_sweep :
    (∃ r ∈ (run fallBack [.upload sampleReq sampleEnv 1]).db,
      r.Code = "0000" ∧ r.ExpiresAt < sampleLater) ∧
    (handleGetMeta (run fallBack [.upload sampleReq sampleEnv 1]) "0000").status = 200 ∧
    (handleDownload (run fallBack [.upload sampleReq sampleEnv 1]) "0000" false).1.status =
      200 ∧
    (∃ r ∈ (run fallBack [uploadBeforeChange]).db,
      r.Code = "0000" ∧ r.ExpiresAt < afterChange) ∧
    (handleGetMeta (run fallBack [uploadBeforeChange, .sweep afterChange (fun _ => true)])
      "0000").status = 200 ∧
    (handleDownload (run fallBack [uploadBeforeChange, .sweep afterChange (fun _ => true)])
      "0000" false).1.status = 200 := by
  refine ⟨⟨sampleRecord, by decide, by decide, by decide⟩, by decide, by decide,
    ⟨rowBeforeChange, by decide, by decide, by decide⟩, by decide, by decide⟩

/-- C6, amended: once a sweep has run at time `now`, a code whose row had `ExpiresAt` earlier
than `now` is answered 404 by `handleGetMeta` and by `handleDownload`, provided the local zone
has the same offset from UTC at that `ExpiresAt` and at `now` and both have local dates in
the years 0 to 9999 (so that the stored texts compare as the instants do). Before the
sweep the handlers do not read `ExpiresAt`: `handleGetMeta` answers 200, and `handleDownload`
answers 200 when the blob of the row it finds is on disk and opens. -/
theorem expired_code_not_found_after_sweep (zone : Int → Int) (s : State) (now : Int)
    (rm : Nat → Bool) (code : String) (openFails : Bool) (r : FileRecord) (hr : r ∈ s.db)
    (hc : r.Code = code) (he : r.ExpiresAt < now) (hz : zone r.ExpiresAt = zone now)
    (hy : InYears zone r.ExpiresAt) (hn : InYears zone now) :
    (handleGetMeta (startCleanupRoutineTick zone s now rm) code).status = 404 ∧
    (handleDownload (startCleanupRoutineTick zone s now rm) code openFails).1.status = 404 ∧
    (handleGetMeta s code).status = 200 ∧
    (∀ x, dbFirst s.db code = some x → x.FilePath ∈ s.fs →
      (handleDownload s code false).1.status = 200) := by
  have hsel : textLt (timeText zone r.ExpiresAt) (timeText zone now) = true :=
    (timeText_lt_iff zone r.ExpiresAt now hz hy hn).2 he
  have hnone : dbFirst (startCleanupRoutineTick zone s now rm).db code = none := by
    rw [dbFirst_eq_none_iff]
    intro x hx hxc
    unfold startCleanupRoutineTick at hx
    rw [sweepLoop_db] at hx
    have h2 := (List.mem_filter.1 hx).2
    simp only [decide_eq_true_eq] at h2
    apply h2
    rw [hxc, ← hc]
    exact List.mem_map.2 ⟨r, List.mem_filter.2 ⟨hr, hsel⟩, rfl⟩
  have hsome : ∃ x, dbFirst s.db code = some x := by
    cases h : dbFirst s.db code with
    | none => exact absurd hc ((dbFirst_eq_none_iff _ _).1 h r hr)
    | some x => exact ⟨x, rfl⟩
  refine ⟨by simp [handleGetMeta, hnone], by simp [handleDownload, hnone], ?_, ?_⟩
  · obtain ⟨x, hx⟩ := hsome
    simp [handleGetMeta, hx]
  · intro x hx hfs
    simp [handleDownload, hx, hfs]

/-- C6 as amended, at a concrete input: the sample store swept 700 s after the upload, both
instants at UTC-8. -/
theorem expired_code_not_found_after_sweep_witness :
    fallBack sampleRecord.ExpiresAt = fallBack sampleLater ∧
    (handleGetMeta (startCleanupRoutineTick fallBack sampleState sampleLater (fun _ => true))
      "0000").status = 404 ∧
    (handleDownload (startCleanupRoutineTick fallBack sampleState sampleLater (fun _ => true))
      "0000" false).1.status = 404 :=
  have h := expired_code_not_found_after_sweep fallBack sampleState sampleLater
    (fun _ => true) "0000" false sampleRecord (by decide) (by decide) (by decide) (by decide)
    (by decide) (by decide)
  ⟨by decide, h.1, h.2.1⟩

/-! ## Rollback of a failed insert (C7) -/

/-- C7, refuted as stated: the blob write succeeds, the insert fails, and the `os.Remove` of
the rollback is refused; `handleUpload` answers 500 and the blob is still on disk. -/
theorem rollback_can_leave_blob :
    handleUpload State.init sampleReq
        { sampleEnv with createFails := true, removeOk := false } 1 =
      some (⟨500, .error "Database error"⟩, ⟨[], ["uploads/0000_1700000000.txt"], []⟩) := by
  decide

/-- C7, amended: when the blob write succeeds and the insert fails, `handleUpload` answers
500 with the store unchanged, and the blob just written is gone from the derived path provided
the `os.Remove` of the rollback goes through (its result is not checked; when it is refused the
blob stays); every other path is as it was. -/
theorem handleUpload_insert_failure_rolls_back (s : State) (req : UploadRequest)
    (env : UploadEnv) (fuel : Nat) (file : FileHeader) (code : String) (n : Nat)
    (hd : req.document = some file) (ha : allocLoop s.db env.draws fuel 0 = some (code, n))
    (hs : env.save = .written) (hc : env.createFails = true) :
    ∃ s1, handleUpload s req env fuel = some (⟨500, .error "Database error"⟩, s1) ∧
      s1.db = s.db ∧ s1.burns = s.burns ∧
      (env.removeOk = true → uploadPath file env code ∉ s1.fs) ∧
      (env.removeOk = false → uploadPath file env code ∈ s1.fs) ∧
      (∀ p, p ≠ uploadPath file env code → (p ∈ s1.fs ↔ p ∈ s.fs)) := by
  rcases handleUpload_cases s req env fuel with ⟨hd1, -⟩ | ⟨_, -, ha1, -⟩ |
    ⟨_, _, _, _, -, -, hs1, -⟩ | ⟨file1, code1, n1, hd1, ha1, -, -, e⟩ |
    ⟨_, _, _, -, -, -, hc1, -⟩
  · rw [hd] at hd1; cases hd1
  · rw [ha] at ha1; cases ha1
  · rw [hs] at hs1; cases hs1
  · rw [hd] at hd1; cases hd1
    rw [ha] at ha1; cases ha1
    refine ⟨_, e, rfl, rfl, ?_, ?_, ?_⟩
    · intro hok
      simp only [hok]
      exact not_mem_osRemove _ _
    · intro hok
      simp [hok, osRemove, mem_fsAdd]
    · intro p hp
      constructor
      · intro h
        rcases (mem_fsAdd _ _ _).1 (mem_of_mem_osRemove _ _ _ _ h) with h | h
        · exact absurd h hp
        · exact h
      · intro h
        exact mem_osRemove_of_ne _ _ _ _ ((mem_fsAdd _ _ _).2 (Or.inr h)) hp
  · rw [hc] at hc1; cases hc1

/-- C7 as amended, at a concrete input: the sample upload with a failing insert and a rollback
that goes through. -/
theorem handleUpload_insert_failure_rolls_back_witness :
    ∃ s1, handleUpload State.init sampleReq { sampleEnv with createFails := true } 1 =
        some (⟨500, .error "Database error"⟩, s1) ∧
      s1.db = [] ∧ "uploads/0000_1700000000.txt" ∉ s1.fs :=
  have ⟨s1, h1, h2, _, h4, _, _⟩ :=
    handleUpload_insert_failure_rolls_back State.init sampleReq
      { sampleEnv with createFails := true } 1 sampleFile "0000" 1 rfl (by decide) rfl rfl
  ⟨s1, h1, h2, h4 rfl⟩

/-! ## Self-healing download (C8) -/

/-- The two not-found answers of `handleDownload`, in terms of the row the lookup finds. -/
theorem handleDownload_stale (s : State) (code : String) (openFails : Bool) :
    (∀ r, dbFirst s.db code = some r → r.FilePath ∉ s.fs →
      handleDownload s code openFails =
        (⟨404, .text "File not found on disk"⟩,
          { s with db := s.db.filter (fun x => decide (x.Code ≠ code)) })) ∧
    (dbFirst s.db code = none →
      handleDownload s code openFails = (⟨404, .text "File not found"⟩, s)) := by
  constructor
  · intro r hf hfs
    obtain ⟨-, hrc⟩ := dbFirst_some _ _ _ hf
    simp [handleDownload, hf, hfs, dbDelete, hrc]
  · intro h
    simp [handleDownload, h]

/-- C8: when a code has a row and no blob is at the `FilePath` of a row with that code,
`handleDownload` answers 404 and afterwards no row has that code, while every row with another
code is kept, unchanged and in order, and the disk and the pending burns are as they were;
when no row has the code the answer is 404 and nothing changes. -/
theorem handleDownload_self_heals (s : State) (code : String) (openFails : Bool) :
    ((∃ r ∈ s.db, r.Code = code) → (∀ r ∈ s.db, r.Code = code → r.FilePath ∉ s.fs) →
      (handleDownload s code openFails).1 = ⟨404, .text "File not found on disk"⟩ ∧
      (∀ x ∈ (handleDownload s code openFails).2.db, x.Code ≠ code) ∧
      (∀ x ∈ s.db, x.Code ≠ code → x ∈ (handleDownload s code openFails).2.db) ∧
      (handleDownload s code openFails).2.db =
        s.db.filter (fun x => decide (x.Code ≠ code)) ∧
      (handleDownload s code openFails).2.fs = s.fs ∧
      (handleDownload s code openFails).2.burns = s.burns) ∧
    ((∀ r ∈ s.db, r.Code ≠ code) →
      handleDownload s code openFails = (⟨404, .text "File not found"⟩, s)) := by
  constructor
  · rintro ⟨r, hr, hrc⟩ hall
    cases hf : dbFirst s.db code with
    | none => exact absurd hrc ((dbFirst_eq_none_iff _ _).1 hf r hr)
    | some x =>
      obtain ⟨hx, hxc⟩ := dbFirst_some _ _ _ hf
      have e := (handleDownload_stale s code openFails).1 x hf (hall x hx hxc)
      rw [e]
      refine ⟨rfl, ?_, ?_, rfl, rfl, rfl⟩
      · intro y hy
        simpa using (List.mem_filter.1 hy).2
      · intro y hy hne
        exact List.mem_filter.2 ⟨hy, by simpa using hne⟩
  · intro h
    exact (handleDownload_stale s code openFails).2 ((dbFirst_eq_none_iff _ _).2 h)

/-- C8, at a concrete input: the blob of row `0000` of the sample store has vanished; the
download answers 404 and leaves only row `0007`. -/
theorem handleDownload_self_heals_witness :
    handleDownload { sampleState with fs := ["uploads/0007_1700000000.txt"] } "0000" false =
      (⟨404, .text "File not found on disk"⟩,
        ⟨[sampleRecord7], ["uploads/0007_1700000000.txt"], []⟩) ∧
    (handleDownload { sampleState with fs := ["uploads/0007_1700000000.txt"] } "0000"
      false).2.db = [sampleRecord7] :=
  ⟨by decide,
    ((handleDownload_self_heals { sampleState with fs := ["uploads/0007_1700000000.txt"] }
      "0000" false).1 ⟨sampleRecord, by decide, by decide⟩ (by decide)).2.2.2.1.trans
      (by decide)⟩

/-! ## Burn deletion of a destroyed record (C5) -/

/-- C5, refuted as stated: the captured row `0000` was deleted by the first burn, a later
upload drew code `0000` again, and the second burn deletion, which holds the old copy, deletes
the new row: the store changes. And a burn deletion whose blob removal is refused, run again
with the removal let through, leaves another disk than the first run alone. -/
theorem burnDelete_deletes_reused_code :
    (run fallBack burnRun).db = [sampleRecord7] ∧
    (run fallBack reuseRun).burns = [sampleRecord] ∧
    (run fallBack reuseRun).db = [sampleRecord7, sampleRecordLater] ∧
    (burnDelete (run fallBack reuseRun) sampleRecord true).db = [sampleRecord7] ∧
    (burnDelete (run fallBack reuseRun) sampleRecord true).db ≠ (run fallBack reuseRun).db ∧
    (step fallBack (run fallBack reuseRun) (.burn 0 true)).db = [sampleRecord7] ∧
    (burnDelete (burnDelete (run fallBack downloadRun) sampleRecord false) sampleRecord true).fs ≠
      (burnDelete (run fallBack downloadRun) sampleRecord false).fs := by
  decide

/-- C5, amended: for a burn pending in a reachable state, if no live row holds the captured
code (the row was deleted and the code was not taken again), the burn deletion leaves the store
unchanged; in every case each row live after it has its blob on disk; running it a second time
changes neither the store nor the pending burns, and does not change the disk either when the
first removal was let through or the second is refused. -/
theorem burnDelete_noop_when_code_not_live (zone : Int → Int) (es : List Event)
    (r : FileRecord) (ok ok2 : Bool)
    (hr : r ∈ (run zone es).burns) :
    ((∀ x ∈ (run zone es).db, x.Code ≠ r.Code) → (burnDelete (run zone es) r ok).db = (run zone es).db) ∧
    (∀ x ∈ (burnDelete (run zone es) r ok).db, x.FilePath ∈ (burnDelete (run zone es) r ok).fs) ∧
    (burnDelete (burnDelete (run zone es) r ok) r ok2).db = (burnDelete (run zone es) r ok).db ∧
    (burnDelete (burnDelete (run zone es) r ok) r ok2).burns = (burnDelete (run zone es) r ok).burns ∧
    ((ok = true ∨ ok2 = false) →
      burnDelete (burnDelete (run zone es) r ok) r ok2 = burnDelete (run zone es) r ok) := by
  have hinv := inv_run zone es
  have hdd : ∀ db : List FileRecord, dbDelete (dbDelete db r) r = dbDelete db r := by
    intro db; simp [dbDelete, List.filter_filter]
  refine ⟨?_, ?_, ?_, rfl, ?_⟩
  · intro h
    simp only [burnDelete, dbDelete]
    exact List.filter_eq_self.2 (fun x hx => by simpa using h x hx)
  · intro x hx
    exact ((inv_delete_remove (run zone es) r ok hinv (hinv.2.1 r hr)).1 x hx).2
  · simp only [burnDelete, hdd]
  · intro hok
    have hfs : (osRemove (osRemove (run zone es).fs r.FilePath ok).1 r.FilePath ok2).1 =
        (osRemove (run zone es).fs r.FilePath ok).1 := by
      rcases hok with hok | hok
      · subst hok
        have hno := not_mem_osRemove (run zone es).fs r.FilePath
        generalize (osRemove (run zone es).fs r.FilePath true).1 = fs1 at hno
        simp [osRemove, hno]
      · subst hok
        simp [osRemove]
    simp only [burnDelete, hdd, hfs]

/-- C5 as amended, at a concrete input: after `burnRun` the second burn is pending and no row
holds code `0000`; the burn deletion leaves the store, row `0007`, as it is. -/
theorem burnDelete_noop_when_code_not_live_witness :
    sampleRecord ∈ (run fallBack burnRun).burns ∧
    (∀ x ∈ (run fallBack burnRun).db, x.Code ≠ sampleRecord.Code) ∧
    (burnDelete (run fallBack burnRun) sampleRecord true).db = [sampleRecord7] :=
  ⟨by decide, by decide,
    ((burnDelete_noop_when_code_not_live fallBack burnRun sampleRecord true true
      (by decide)).1
      (by decide)).trans (by decide)⟩

/-! ## The storage name (C10) -/

theorem sprintfD_ne_dot (z : Int) (c : Char) (h : c ∈ sprintfD z) : c ≠ '.' := by
  unfold sprintfD at h
  have hd : ∀ n : Nat, c ∈ Nat.toDigits 10 n → c ≠ '.' := by
    intro n hn hc
    have := toDigits_isDigit n c hn
    rw [hc] at this
    exact absurd this (by decide)
  split at h
  · rcases List.mem_cons.1 h with h | h
    · rw [h]; decide
    · exact hd _ h
  · exact hd _ h

theorem sprintfD_injective (a b : Int) (h : sprintfD a = sprintfD b) : a = b := by
  have hminus : ∀ n : Nat, '-' ∉ Nat.toDigits 10 n := by
    intro n hn
    exact absurd (toDigits_isDigit n _ hn) (by decide)
  unfold sprintfD at h
  by_cases ha : a < 0 <;> by_cases hb : b < 0
  · simp only [ha, hb, if_true, List.cons.injEq, true_and] at h
    have := toDigits_injective h
    omega
  · simp only [ha, hb, if_true, if_false] at h
    exact absurd (h ▸ List.mem_cons_self _ _) (hminus _)
  · simp only [ha, hb, if_true, if_false] at h
    exact absurd (h ▸ List.mem_cons_self _ _) (hminus _)
  · simp only [ha, hb, if_false] at h
    have := toDigits_injective h
    omega

/-- A dot-free prefix followed by a suffix that is empty or starts with a dot splits in one
way only. -/
theorem split_at_dot (d1 : List Char) : ∀ (d2 e1 e2 : List Char),
    (∀ c ∈ d1, c ≠ '.') → (∀ c ∈ d2, c ≠ '.') →
    (e1 = [] ∨ e1.head? = some '.') → (e2 = [] ∨ e2.head? = some '.') →
    d1 ++ e1 = d2 ++ e2 → d1 = d2 ∧ e1 = e2 := by
  induction d1 with
  | nil =>
    intro d2 e1 e2 _ h2 he1 _ h
    cases d2 with
    | nil => exact ⟨rfl, by simpa using h⟩
    | cons c d2 =>
      simp only [List.nil_append, List.cons_append] at h
      rcases he1 with he1 | he1
      · rw [he1] at h; cases h
      · rw [h] at he1
        simp only [List.head?_cons, Option.some.injEq] at he1
        exact absurd he1 (h2 c (List.mem_cons_self _ _))
  | cons c d1 ih =>
    intro d2 e1 e2 h1 h2 he1 he2 h
    cases d2 with
    | nil =>
      simp only [List.nil_append, List.cons_append] at h
      rcases he2 with he2 | he2
      · rw [he2] at h; cases h
      · rw [← h] at he2
        simp only [List.head?_cons, Option.some.injEq] at he2
        exact absurd he2 (h1 c (List.mem_cons_self _ _))
    | cons c2 d2 =>
      simp only [List.cons_append, List.cons.injEq] at h
      obtain ⟨hc, ht⟩ := h
      obtain ⟨hd, he⟩ := ih d2 e1 e2 (fun x hx => h1 x (List.mem_cons_of_mem _ hx))
        (fun x hx => h2 x (List.mem_cons_of_mem _ hx)) he1 he2 ht
      exact ⟨by rw [hc, hd], he⟩

theorem extScan_shape (l : List Char) : ∀ acc : List Char,
    extScan l acc = [] ∨ (extScan l acc).head? = some '.' := by
  induction l with
  | nil => intro acc; left; rfl
  | cons c rest ih =>
    intro acc
    simp only [extScan]
    split
    · left; rfl
    · split
      · right; rfl
      · exact ih _

theorem filepathExt_shape (name : String) :
    (filepathExt name).data = [] ∨ (filepathExt name).data.head? = some '.' :=
  extScan_shape _ _

theorem uniqueName_eq_iff (c1 c2 : String) (t1 t2 : Int) (e1 e2 : String)
    (h1 : c1.length = 4) (h2 : c2.length = 4)
    (he1 : e1.data = [] ∨ e1.data.head? = some '.')
    (he2 : e2.data = [] ∨ e2.data.head? = some '.') :
    uniqueName c1 t1 e1 = uniqueName c2 t2 e2 ↔ c1 = c2 ∧ Unix t1 = Unix t2 ∧ e1 = e2 := by
  constructor
  · intro h
    have hdata := congrArg String.data h
    simp only [uniqueName, String.data_append, List.append_assoc] at hdata
    have hl : c1.data.length = c2.data.length := h1.trans h2.symm
    obtain ⟨hc, hrest⟩ := List.append_inj hdata hl
    have hrest2 : sprintfD (Unix t1) ++ e1.data = sprintfD (Unix t2) ++ e2.data :=
      List.append_cancel_left hrest
    obtain ⟨hd, he⟩ := split_at_dot _ _ _ _ (sprintfD_ne_dot _) (sprintfD_ne_dot _) he1 he2 hrest2
    exact ⟨String.ext hc, sprintfD_injective _ _ hd, String.ext he⟩
  · rintro ⟨hc, ht, he⟩
    simp only [uniqueName, hc, ht, he]

/-- C10, refuted as stated: two uploads under code `0000` at two different instants of the
same second get the same storage name and the same path. -/
theorem uniqueName_same_second_collides :
    (1700000000123456789 : Int) ≠ 1700000000999999999 ∧
    uniqueName "0000" 1700000000123456789 ".txt" =
      uniqueName "0000" 1700000000999999999 ".txt" ∧
    uploadPath sampleFile sampleEnv "0000" =
      uploadPath sampleFile { sampleEnv with nameNow := 1700000000999999999 } "0000" := by
  decide

/-- C10, amended: for four-character codes and extensions that are empty or start with a dot
(as every result of `filepath.Ext` is), two storage names, and the two paths built from them,
are equal exactly when the codes, the Unix seconds of the two instants and the extensions are
equal. So uploads with different codes get different names, and uploads under the same code
get different names when their instants fall in different seconds. -/
theorem uniqueName_collision_safe (c1 c2 : String) (t1 t2 : Int) (e1 e2 : String)
    (h1 : c1.length = 4) (h2 : c2.length = 4)
    (he1 : e1.data = [] ∨ e1.data.head? = some '.')
    (he2 : e2.data = [] ∨ e2.data.head? = some '.') :
    (uniqueName c1 t1 e1 = uniqueName c2 t2 e2 ↔ c1 = c2 ∧ Unix t1 = Unix t2 ∧ e1 = e2) ∧
    (savePathOf (uniqueName c1 t1 e1) = savePathOf (uniqueName c2 t2 e2) ↔
      c1 = c2 ∧ Unix t1 = Unix t2 ∧ e1 = e2) ∧
    (c1 ≠ c2 → uniqueName c1 t1 e1 ≠ uniqueName c2 t2 e2) ∧
    (Unix t1 ≠ Unix t2 → uniqueName c1 t1 e1 ≠ uniqueName c2 t2 e2) ∧
    (∀ name : String,
      (filepathExt name).data = [] ∨ (filepathExt name).data.head? = some '.') := by
  have hiff := uniqueName_eq_iff c1 c2 t1 t2 e1 e2 h1 h2 he1 he2
  refine ⟨hiff, ?_, ?_, ?_, filepathExt_shape⟩
  · rw [← hiff]
    constructor
    · intro h
      have hdata := congrArg String.data h
      simp only [savePathOf, String.data_append] at hdata
      exact String.ext (List.append_cancel_left hdata)
    · intro h; rw [h]
  · intro hne h
    exact hne (hiff.1 h).1
  · intro hne h
    exact hne (hiff.1 h).2.1

/-- C10 as amended, at a concrete input: code `0000` reused twenty seconds later, with the
same extension, gets another name. -/
theorem uniqueName_collision_safe_witness :
    Unix 1700000000123456789 ≠ Unix 1700000020123456789 ∧
    uniqueName "0000" 1700000000123456789 ".txt" ≠
      uniqueName "0000" 1700000020123456789 ".txt" :=
  ⟨by decide,
    (uniqueName_collision_safe "0000" "0000" 1700000000123456789 1700000020123456789 ".txt"
      ".txt" (by decide) (by decide) (by decide) (by decide)).2.2.2.1 (by decide)⟩

end Beam
